import Mathlib

/-!
Verification of the JSON-RPC runtime in `src/bundled/tool/lsp_jsonrpc.py`
(vscode-zenml).

The embedding models Python strings as `List Char`, the byte stream feeding a
`JsonReader` as the list of characters its `io.TextIOWrapper` yields, and the
Python exceptions that the module can raise as the inductive `PyErr`.  The
standard-library `json.dumps` / `json.loads` pair (an external dependency of
the file under study, with `ensure_ascii=True` defaults) is modelled by the
executable `json_dumps` / `json_loads` below; JSON numbers are modelled as
integers, which covers every message this protocol exchanges.
-/

/-- Python exceptions that the code under study can raise or catch. -/
inductive PyErr where
  | streamClosed
  | eofError
  | valueError
  | jsonDecodeError
  | osError
  | exception (msg : String)
deriving DecidableEq, Repr

/-- ASCII decimal digit test (`str.isdigit` on ASCII, and the digits emitted
by `json.dumps`). -/
def isDigitCh (c : Char) : Bool := 48 ≤ c.toNat && c.toNat ≤ 57

/-- Python whitespace as used by `str.strip()` and `int()` (ASCII part). -/
def isPySpace (c : Char) : Bool :=
  c = ' ' || c = '\t' || c = '\n' || c = '\r' || c = '\x0b' || c = '\x0c'

/-- JSON whitespace as skipped by `json.loads`. -/
def isJsonWs (c : Char) : Bool := c = ' ' || c = '\t' || c = '\n' || c = '\r'

/-- Drop leading JSON whitespace. -/
def skipWs : List Char → List Char
  | [] => []
  | c :: cs => if isJsonWs c then skipWs cs else c :: cs

/-- Python `str.strip()`: remove leading and trailing whitespace. -/
def pyStrip (cs : List Char) : List Char :=
  ((cs.dropWhile isPySpace).reverse.dropWhile isPySpace).reverse

/-- Value of a digit string, most significant first (accumulating fold, the
way `int()` consumes validated digits). -/
def digitsVal (cs : List Char) : Nat :=
  cs.foldl (fun a c => a * 10 + (c.toNat - 48)) 0

/-- Python `int(s)`: strip whitespace, optional sign, then a nonempty run of
digits; anything else raises `ValueError` (`none` here). -/
def pyInt (cs : List Char) : Option Int :=
  match pyStrip cs with
  | [] => none
  | c :: t =>
      if c = '-' then (if t ≠ [] ∧ t.all isDigitCh then some (-(digitsVal t : Int)) else none)
      else if c = '+' then (if t ≠ [] ∧ t.all isDigitCh then some ((digitsVal t : Int)) else none)
      else if (c :: t).all isDigitCh then some ((digitsVal (c :: t) : Int)) else none

/-- The decimal digit character carrying value `k` (for `k ≤ 9`). -/
def decDigit (k : Nat) : Char := Char.ofNat (48 + k)

/-- Decimal digits of `n`, most significant first, pushed onto `acc`.
Structural in `fuel` so that concrete values reduce by `decide`; `fuel = n + 1`
always suffices. -/
def decCharsAux : Nat → Nat → List Char → List Char
  | 0, _, acc => acc
  | fuel + 1, n, acc =>
      if n < 10 then decDigit n :: acc
      else decCharsAux fuel (n / 10) (decDigit (n % 10) :: acc)

/-- The decimal digit characters of `n` (Python `str` of a nonnegative int,
and the digits an f-string interpolates for `length`). -/
def decimalChars (n : Nat) : List Char := decCharsAux (n + 1) n []

/-- Python `str(i)` for an integer: optional minus sign, then digits. -/
def intChars (i : Int) : List Char :=
  if i < 0 then '-' :: decimalChars i.natAbs else decimalChars i.natAbs

/-- Lowercase hexadecimal digit character of `k < 16` (as `'%04x' % n` uses). -/
def hexDigit (k : Nat) : Char :=
  if k < 10 then Char.ofNat (48 + k) else Char.ofNat (87 + k)

/-- The four lowercase hex digits of `n < 0x10000`, as in a `\uXXXX` escape. -/
def hex4Chars (n : Nat) : List Char :=
  [hexDigit (n / 4096 % 16), hexDigit (n / 256 % 16), hexDigit (n / 16 % 16), hexDigit (n % 16)]

/-- Value of one hexadecimal digit character, upper or lower case. -/
def hexVal (c : Char) : Option Nat :=
  if 48 ≤ c.toNat ∧ c.toNat ≤ 57 then some (c.toNat - 48)
  else if 97 ≤ c.toNat ∧ c.toNat ≤ 102 then some (c.toNat - 87)
  else if 65 ≤ c.toNat ∧ c.toNat ≤ 70 then some (c.toNat - 55)
  else none

/-- A JSON value: the messages this protocol exchanges.  Numbers are modelled
as integers (the protocol never sends fractional numbers); Python `str` maps
to `String`. -/
inductive Json where
  | null
  | bool (b : Bool)
  | num (n : Int)
  | str (s : String)
  | arr (xs : List Json)
  | obj (kvs : List (String × Json))

/-- One character as `json.dumps` (default `ensure_ascii=True`) emits it
inside a string literal: printable ASCII other than `"` and `\` passes
through, the short escapes cover `\b \t \n \f \r`, every other character
becomes `\uXXXX` (a surrogate pair when the code point is astral). -/
def escapeChar (c : Char) : List Char :=
  if c = '"' then ['\\', '"']
  else if c = '\\' then ['\\', '\\']
  else if c = '\x08' then ['\\', 'b']
  else if c = '\t' then ['\\', 't']
  else if c = '\n' then ['\\', 'n']
  else if c = '\x0c' then ['\\', 'f']
  else if c = '\r' then ['\\', 'r']
  else if 32 ≤ c.toNat ∧ c.toNat ≤ 126 then [c]
  else if c.toNat < 0x10000 then '\\' :: 'u' :: hex4Chars c.toNat
  else
    let v := c.toNat - 0x10000
    ('\\' :: 'u' :: hex4Chars (0xd800 + v / 0x400)) ++
      ('\\' :: 'u' :: hex4Chars (0xdc00 + v % 0x400))

/-- A whole string body, escaped character by character. -/
def escStr : List Char → List Char
  | [] => []
  | c :: cs => escapeChar c ++ escStr cs

mutual
/-- `json.dumps` with its defaults (`ensure_ascii=True`, separators
`", "` and `": "`), producing the character list Python would produce. -/
def dumpVal : Json → List Char
  | .null => 'n' :: ['u', 'l', 'l']
  | .bool true => 't' :: ['r', 'u', 'e']
  | .bool false => 'f' :: ['a', 'l', 's', 'e']
  | .num n => intChars n
  | .str s => '"' :: (escStr s.data ++ ['"'])
  | .arr [] => ['[', ']']
  | .arr (x :: xs) => '[' :: (dumpVal x ++ dumpTailItems xs ++ [']'])
  | .obj [] => ['\x7b', '\x7d']
  | .obj (p :: ps) => '\x7b' :: (dumpPair p ++ dumpTailPairs ps ++ ['\x7d'])

/-- The `", "`-separated tail of an array body. -/
def dumpTailItems : List Json → List Char
  | [] => []
  | x :: xs => ',' :: ' ' :: (dumpVal x ++ dumpTailItems xs)

/-- One `key: value` member, key escaped like any string. -/
def dumpPair : String × Json → List Char
  | (k, v) => '"' :: (escStr k.data ++ '"' :: ':' :: ' ' :: dumpVal v)

/-- The `", "`-separated tail of an object body. -/
def dumpTailPairs : List (String × Json) → List Char
  | [] => []
  | p :: ps => ',' :: ' ' :: (dumpPair p ++ dumpTailPairs ps)
end

/-- `json.dumps(data)` as the code under study calls it. -/
def json_dumps (m : Json) : List Char := dumpVal m

/-- The single-character escapes `json.loads` accepts after a backslash. -/
def unescapeCh (c : Char) : Option Char :=
  if c = '"' then some '"'
  else if c = '\\' then some '\\'
  else if c = '/' then some '/'
  else if c = 'b' then some '\x08'
  else if c = 'f' then some '\x0c'
  else if c = 'n' then some '\n'
  else if c = 'r' then some '\r'
  else if c = 't' then some '\t'
  else none

/-- String-literal body parser (after the opening quote): plain characters,
backslash escapes, `\uXXXX` (reassembling surrogate pairs), terminated by an
unescaped quote.  Control characters must be escaped (`json.loads` strict
mode).  A lone surrogate escape is rejected here; Python would build a lone
surrogate `str`, which has no `Char` counterpart and never arises from
`json_dumps` output. -/
def parseStrBodyAux : Nat → List Char → List Char → Option (String × List Char)
  | 0, _, _ => none
  | fuel + 1, acc, cs =>
    match cs with
    | [] => none
    | '"' :: rest => some (⟨acc.reverse⟩, rest)
    | '\\' :: 'u' :: (u1 :: u2 :: u3 :: u4 :: rest) =>
        match hexVal u1, hexVal u2, hexVal u3, hexVal u4 with
        | some va, some vb, some vc, some vd =>
            let n := ((va * 16 + vb) * 16 + vc) * 16 + vd
            if 0xd800 ≤ n ∧ n ≤ 0xdbff then
              match rest with
              | '\\' :: 'u' :: (w1 :: w2 :: w3 :: w4 :: rest2) =>
                  match hexVal w1, hexVal w2, hexVal w3, hexVal w4 with
                  | some wa, some wb, some wc, some wd =>
                      let n2 := ((wa * 16 + wb) * 16 + wc) * 16 + wd
                      if 0xdc00 ≤ n2 ∧ n2 ≤ 0xdfff then
                        parseStrBodyAux fuel
                          (Char.ofNat (0x10000 + (n - 0xd800) * 0x400 + (n2 - 0xdc00)) :: acc) rest2
                      else none
                  | _, _, _, _ => none
              | _ => none
            else if 0xdc00 ≤ n ∧ n ≤ 0xdfff then none
            else parseStrBodyAux fuel (Char.ofNat n :: acc) rest
        | _, _, _, _ => none
    | '\\' :: e :: rest =>
        match unescapeCh e with
        | some ch => parseStrBodyAux fuel (ch :: acc) rest
        | none => none
    | c :: rest => if c.toNat < 32 then none else parseStrBodyAux fuel (c :: acc) rest

/-- The string-body parser on a whole remainder (one fuel unit per decoded
character, so `length + 1` suffices). -/
def parseStrBody (acc : List Char) (cs : List Char) : Option (String × List Char) :=
  parseStrBodyAux (cs.length + 1) acc cs

/-- Number parser: optional minus sign, then a maximal nonempty digit run
(integers only; the messages of this protocol carry no fractional numbers). -/
def parseIntFrom (cs : List Char) : Option (Json × List Char) :=
  match cs with
  | '-' :: t =>
      if (t.takeWhile isDigitCh) = [] then none
      else some (.num (-(digitsVal (t.takeWhile isDigitCh) : Int)), t.dropWhile isDigitCh)
  | t =>
      if (t.takeWhile isDigitCh) = [] then none
      else some (.num ((digitsVal (t.takeWhile isDigitCh) : Int)), t.dropWhile isDigitCh)

mutual
/-- `json.loads`' recursive-descent value parser, structural on `fuel`
(`fuel = input length + 1` always suffices, since every nesting level consumes
at least one character). -/
def parseVal : Nat → List Char → Option (Json × List Char)
  | 0, _ => none
  | fuel + 1, cs =>
    match skipWs cs with
    | 'n' :: ('u' :: 'l' :: 'l' :: r) => some (.null, r)
    | 't' :: ('r' :: 'u' :: 'e' :: r) => some (.bool true, r)
    | 'f' :: ('a' :: 'l' :: 's' :: 'e' :: r) => some (.bool false, r)
    | '"' :: r => (parseStrBody [] r).map (fun p => (.str p.1, p.2))
    | '[' :: r =>
        match skipWs r with
        | [] => none
        | c :: r2 =>
            if c = ']' then some (.arr [], r2)
            else (parseItems fuel (c :: r2)).map (fun p => (.arr p.1, p.2))
    | '\x7b' :: r =>
        match skipWs r with
        | [] => none
        | c :: r2 =>
            if c = '\x7d' then some (.obj [], r2)
            else (parsePairs fuel (c :: r2)).map (fun p => (.obj p.1, p.2))
    | cs2 => parseIntFrom cs2

/-- One-or-more comma-separated array elements, then the closing bracket. -/
def parseItems : Nat → List Char → Option (List Json × List Char)
  | 0, _ => none
  | fuel + 1, cs =>
    match parseVal fuel cs with
    | none => none
    | some (v, r) =>
        match skipWs r with
        | ',' :: r2 => (parseItems fuel r2).map (fun p => (v :: p.1, p.2))
        | ']' :: r2 => some ([v], r2)
        | _ => none

/-- One-or-more comma-separated object members, then the closing brace. -/
def parsePairs : Nat → List Char → Option (List (String × Json) × List Char)
  | 0, _ => none
  | fuel + 1, cs =>
    match skipWs cs with
    | '"' :: r =>
        match parseStrBody [] r with
        | none => none
        | some (k, r1) =>
            match skipWs r1 with
            | ':' :: r2 =>
                match parseVal fuel r2 with
                | none => none
                | some (v, r3) =>
                    match skipWs r3 with
                    | ',' :: r4 => (parsePairs fuel r4).map (fun p => ((k, v) :: p.1, p.2))
                    | '\x7d' :: r4 => some ([(k, v)], r4)
                    | _ => none
            | _ => none
    | _ => none
end

/-- `json.loads(content)`: parse one document, tolerating trailing
whitespace; anything else is a `JSONDecodeError` (`none`). -/
def json_loads (cs : List Char) : Option Json :=
  match parseVal (cs.length + 1) cs with
  | some (j, r) => if skipWs r = [] then some j else none
  | none => none

/-- The header constant `CONTENT_LENGTH = "Content-Length: "`. -/
def contentLengthHeader : List Char := "Content-Length: ".data

/-- UTF-8 width in bytes of one character (what `str.encode("utf-8")`
contributes per code point). -/
def utf8Width (c : Char) : Nat :=
  if c.toNat < 0x80 then 1
  else if c.toNat < 0x800 then 2
  else if c.toNat < 0x10000 then 3
  else 4

/-- `len(content.encode("utf-8"))`. -/
def utf8Len (cs : List Char) : Nat := (cs.map utf8Width).sum

/-- `JsonWriter.write(data)`: raise `StreamClosedException` on a closed
writer, otherwise emit `f"{CONTENT_LENGTH}{length}\r\n\r\n{content}"` where
`content = json.dumps(data)` and `length` is its UTF-8 byte count.  The
result is the character sequence handed to the underlying UTF-8 text
stream. -/
def JsonWriter_write (closed : Bool) (data : Json) : Except PyErr (List Char) :=
  if closed then .error .streamClosed
  else
    .ok (contentLengthHeader ++ decimalChars (utf8Len (json_dumps data)) ++
          '\r' :: '\n' :: '\r' :: '\n' :: json_dumps data)

/-- One `readline()` on the modelled text stream: everything up to and
including the first newline, or the whole remainder at end of stream. -/
def splitLine : List Char → List Char × List Char
  | [] => ([], [])
  | c :: cs =>
      if c = '\n' then ([c], cs)
      else ((splitLine cs).1.cons c, (splitLine cs).2)

/-- The header phase of `JsonReader.read`: `_readline` until a line starting
with `Content-Length: ` parses to a nonzero `length` (`int` of the slice after
the prefix; `0` is falsy, so the `while not length` loop keeps going).  An
empty `readline` result raises `EOFError`; an unparsable slice raises
`ValueError`.  Structural on `fuel`; each iteration consumes at least one
character, so `fuel = length + 1` always suffices. -/
def headerLoopAux : Nat → List Char → Except PyErr (Int × List Char)
  | 0, _ => .error .eofError
  | fuel + 1, s =>
      if s = [] then .error .eofError
      else
        if (splitLine s).1.take 16 = contentLengthHeader then
          match pyInt ((splitLine s).1.drop 16) with
          | none => .error .valueError
          | some n => if n = 0 then headerLoopAux fuel (splitLine s).2 else .ok (n, (splitLine s).2)
        else headerLoopAux fuel (splitLine s).2

/-- The header phase, run on the whole remaining stream. -/
def headerLoop (s : List Char) : Except PyErr (Int × List Char) :=
  headerLoopAux (s.length + 1) s

/-- The header-terminator phase: `readline().strip()` until a blank line
(an empty `readline` raises `EOFError`). -/
def blankLoopAux : Nat → List Char → Except PyErr (List Char)
  | 0, _ => .error .eofError
  | fuel + 1, s =>
      if s = [] then .error .eofError
      else
        if pyStrip (splitLine s).1 = [] then .ok (splitLine s).2
        else blankLoopAux fuel (splitLine s).2

/-- The blank-line phase, run on the whole remaining stream. -/
def blankLoop (s : List Char) : Except PyErr (List Char) :=
  blankLoopAux (s.length + 1) s

/-- `TextIOWrapper.read(n)` from the remaining stream: `n` characters (fewer
at end of stream), the whole remainder for a negative `n`. -/
def pyTextRead (n : Int) (s : List Char) : List Char × List Char :=
  if n < 0 then (s, []) else (s.take n.toNat, s.drop n.toNat)

/-- `JsonReader.read()`: `StreamClosedException` on a closed reader, else the
header loop, the blank-line loop, a `read(length)` of the body, and
`json.loads` of what came back (`JSONDecodeError` on failure).  Returns the
decoded message and the unconsumed remainder of the stream. -/
def JsonReader_read (closed : Bool) (s : List Char) : Except PyErr (Json × List Char) :=
  if closed then .error .streamClosed
  else
    match headerLoop s with
    | .error e => .error e
    | .ok (n, s1) =>
        match blankLoop s1 with
        | .error e => .error e
        | .ok s2 =>
            match json_loads (pyTextRead n s2).1 with
            | some j => .ok (j, (pyTextRead n s2).2)
            | none => .error .jsonDecodeError

/-- `json.dumps(msg, indent=4)`: the pretty form used in the id-mismatch
error text.  `nlInd k` is the newline plus `4 * k` spaces that precede an
element at nesting level `k`. -/
def nlInd (lvl : Nat) : List Char := '\n' :: List.replicate (4 * lvl) ' '

mutual
/-- Pretty serializer at nesting level `lvl` (separators `","` and `": "`,
each element on its own indented line, as CPython renders `indent=4`). -/
def dumpIndVal (lvl : Nat) : Json → List Char
  | .null => 'n' :: ['u', 'l', 'l']
  | .bool true => 't' :: ['r', 'u', 'e']
  | .bool false => 'f' :: ['a', 'l', 's', 'e']
  | .num n => intChars n
  | .str s => '"' :: (escStr s.data ++ ['"'])
  | .arr [] => ['[', ']']
  | .arr (x :: xs) =>
      '[' :: (nlInd (lvl + 1) ++ dumpIndVal (lvl + 1) x ++ dumpIndTailItems (lvl + 1) xs ++
        nlInd lvl ++ [']'])
  | .obj [] => ['\x7b', '\x7d']
  | .obj (p :: ps) =>
      '\x7b' :: (nlInd (lvl + 1) ++ dumpIndPair (lvl + 1) p ++ dumpIndTailPairs (lvl + 1) ps ++
        nlInd lvl ++ ['\x7d'])

def dumpIndTailItems (lvl : Nat) : List Json → List Char
  | [] => []
  | x :: xs => ',' :: (nlInd lvl ++ dumpIndVal lvl x ++ dumpIndTailItems lvl xs)

def dumpIndPair (lvl : Nat) : String × Json → List Char
  | (k, v) => '"' :: (escStr k.data ++ '"' :: ':' :: ' ' :: dumpIndVal lvl v)

def dumpIndTailPairs (lvl : Nat) : List (String × Json) → List Char
  | [] => []
  | p :: ps => ',' :: (nlInd lvl ++ dumpIndPair lvl p ++ dumpIndTailPairs lvl ps)
end

/-- `json.dumps(msg, indent=4)` at the top level. -/
def json_dumps_indent4 (m : Json) : List Char := dumpIndVal 0 m

/-- A `JsonRpc` connection as the pool sees it: which spawn created it (so a
fresh connection is distinguishable from a reaped one) and whether it has
been closed. -/
structure Conn where
  spawnId : Nat
  closed : Bool
deriving DecidableEq, Repr

/-- The mutable state of `ProcessManager`: the `_processes` map (workspace →
subprocess handle, identified by its spawn id) and the `_rpc` map (workspace →
connection).  Python dict lookups are modelled by association-list lookup. -/
structure PMState where
  processes : List (String × Nat)
  rpc : List (String × Conn)
deriving DecidableEq, Repr

/-- Dict assignment `d[k] = v`: the new binding shadows (replaces) any old
one. -/
def dictSet {α : Type} (k : String) (v : α) (d : List (String × α)) : List (String × α) :=
  (k, v) :: d.filter (fun p => p.1 ≠ k)

/-- Dict deletion `del d[k]` (no-op here; the caller checks presence, matching
the `try/except` around the Python `del`). -/
def dictDel {α : Type} (k : String) (d : List (String × α)) : List (String × α) :=
  d.filter (fun p => p.1 ≠ k)

/-- `ProcessManager.start_process`: `subprocess.Popen` runs first — if the
spawn fails (`spawn = none`, an `OSError`), the exception propagates with no
map touched; on success (`spawn = some pid`) both maps are updated and a
monitor task is submitted for the new process. -/
def start_process (st : PMState) (workspace : String) (spawn : Option Nat) :
    PMState × Option PyErr :=
  match spawn with
  | none => (st, some .osError)
  | some pid =>
      ({ processes := dictSet workspace pid st.processes,
         rpc := dictSet workspace ⟨pid, false⟩ st.rpc }, none)

/-- The body of the monitor task after `proc.wait()` returns: under the lock,
`del self._processes[workspace]`, `self._rpc.pop(workspace)`, and `close()` on
the popped connection, any `KeyError` swallowed by the bare `except`.  Returns
the new state and the connection that was closed, if any. -/
def monitorReap (st : PMState) (workspace : String) : PMState × Option Conn :=
  match st.processes.lookup workspace with
  | none => (st, none)
  | some _ =>
      let st1 : PMState := { st with processes := dictDel workspace st.processes }
      match st.rpc.lookup workspace with
      | none => (st1, none)
      | some c => ({ st1 with rpc := dictDel workspace st.rpc }, some { c with closed := true })

/-- `ProcessManager.get_json_rpc`: the connection for `workspace` if present,
else `raise StreamClosedException()`. -/
def get_json_rpc (st : PMState) (workspace : String) : Except PyErr Conn :=
  match st.rpc.lookup workspace with
  | some c => .ok c
  | none => .error .streamClosed

/-- `_get_json_rpc`: the module-level wrapper that catches
`StreamClosedException` and `KeyError` and returns `None`. -/
def get_json_rpc_or_none (st : PMState) (workspace : String) : Option Conn :=
  match get_json_rpc st workspace with
  | .ok c => some c
  | .error _ => none

/-- `get_or_start_json_rpc`: reuse the existing connection, else
`start_process` (whose spawn failure propagates) followed by a second
lookup. -/
def get_or_start_json_rpc (st : PMState) (workspace : String) (spawn : Option Nat) :
    PMState × Except PyErr (Option Conn) :=
  match get_json_rpc_or_none st workspace with
  | some c => (st, .ok (some c))
  | none =>
      match start_process st workspace spawn with
      | (st1, some e) => (st1, .error e)
      | (st1, none) => (st1, .ok (get_json_rpc_or_none st1 workspace))

/-- `RpcRunResult(stdout, stderr, exception=None)`. -/
structure RpcRunResult where
  stdout : String
  stderr : String
  exception : Option String := none
deriving DecidableEq, Repr

/-- The response dictionary `run_over_json_rpc` receives: an `id` (the claims
quantify over responses that carry one), and optional `result`, `error` and
`exception` fields. -/
structure RpcResponse where
  id : String
  result : Option String := none
  error : Option String := none
  exception : Option Bool := none
deriving DecidableEq, Repr

/-- The request dictionary built by `run_over_json_rpc`: the six fixed fields
in insertion order, then `source` only when it is provided and truthy
(`if source:` — an empty string is falsy in Python). -/
def buildRunRequest (msgId module : String) (argv : List String) (useStdin : Bool)
    (cwd : String) (source : Option String) : Json :=
  .obj ([("id", .str msgId), ("method", .str "run"), ("module", .str module),
         ("argv", .arr (argv.map .str)), ("useStdin", .bool useStdin), ("cwd", .str cwd)] ++
        (match source with
         | some s => if s = "" then [] else [("source", .str s)]
         | none => []))

/-- Field lookup in a JSON object (`"k" in data` / `data["k"]`). -/
def jsonField (j : Json) (k : String) : Option Json :=
  match j with
  | .obj kvs => kvs.lookup k
  | _ => none

/-- The response-mapping tail of `run_over_json_rpc` (everything after
`receive_data`): the id check first, then the `result`/`error`/`exception`
mapping. -/
def handleRunResponse (msg : Json) (msgId : String) (d : RpcResponse) : RpcRunResult :=
  if d.id ≠ msgId then
    { stdout := "",
      stderr := ⟨"Invalid result for request: ".data ++ json_dumps_indent4 msg⟩ }
  else
    let result := d.result.getD ""
    match d.error with
    | some err =>
        if d.exception.getD false then { stdout := result, stderr := "", exception := some err }
        else { stdout := result, stderr := err }
    | none => { stdout := result, stderr := "" }

/-- What one call to `run_over_json_rpc` did: the pool state it left behind,
the requests it wrote to the connection, and its outcome (`.error` models an
uncaught Python exception). -/
structure RunOutcome where
  state : PMState
  sent : List Json
  result : Except PyErr RpcRunResult

/-- `run_over_json_rpc`.  Nondeterministic inputs are passed explicitly: the
spawn outcome `spawn` (the pid `subprocess.Popen` would return, or `none` for
a spawn failure), the fresh correlation id `msgId` (`uuid4`), and the decoded
response `response` that `receive_data` returns for this call. -/
def run_over_json_rpc (st : PMState) (workspace : String) (spawn : Option Nat)
    (module : String) (argv : List String) (useStdin : Bool) (cwd : String)
    (source : Option String) (msgId : String) (response : RpcResponse) : RunOutcome :=
  match get_or_start_json_rpc st workspace spawn with
  | (st1, .error e) => ⟨st1, [], .error e⟩
  | (st1, .ok none) => ⟨st1, [], .error (.exception "Failed to run over JSON-RPC.")⟩
  | (st1, .ok (some conn)) =>
      let msg := buildRunRequest msgId module argv useStdin cwd source
      if conn.closed then ⟨st1, [], .error .streamClosed⟩
      else ⟨st1, [msg], .ok (handleRunResponse msg msgId response)⟩

/-- A follower that cannot extend a parsed integer: empty input or a
non-digit head.  Every delimiter `json_dumps` places after a number (comma,
closing bracket, closing brace, end of input) qualifies. -/
def noDigitStart : List Char → Bool
  | [] => true
  | c :: _ => !(isDigitCh c)

theorem splitLine_append (s : List Char) : (splitLine s).1 ++ (splitLine s).2 = s := by
  induction s with
  | nil => rfl
  | cons c cs ih => by_cases hc : c = '\n' <;> simp [splitLine, hc, ih]

theorem splitLine_fst_ne_nil {s : List Char} (h : s ≠ []) : (splitLine s).1 ≠ [] := by
  match s with
  | c :: cs => by_cases hc : c = '\n' <;> simp [splitLine, hc]

theorem splitLine_snd_lt {s : List Char} (h : s ≠ []) : (splitLine s).2.length < s.length := by
  have ha := splitLine_append s
  have hf := splitLine_fst_ne_nil h
  have hlen : (splitLine s).1.length + (splitLine s).2.length = s.length := by
    rw [← List.length_append, ha]
  have : 0 < (splitLine s).1.length := List.length_pos.mpr hf
  omega

theorem splitLine_newline {l : List Char} (r : List Char) (h : '\n' ∉ l) :
    splitLine (l ++ '\n' :: r) = (l ++ ['\n'], r) := by
  induction l with
  | nil => simp [splitLine]
  | cons c t ih =>
      have hc : c ≠ '\n' := fun hc => h (hc ▸ List.mem_cons_self c t)
      have ht : '\n' ∉ t := fun ht => h (List.mem_cons_of_mem c ht)
      simp [splitLine, hc, ih ht]

theorem dropWhile_of_all_neg {p : Char → Bool} : ∀ {l : List Char},
    (∀ c ∈ l, p c = false) → l.dropWhile p = l
  | [], _ => rfl
  | c :: t, h => by simp [List.dropWhile, h c (List.mem_cons_self c t)]

theorem take_own_length {α : Type} : ∀ (l r : List α), (l ++ r).take l.length = l
  | [], _ => rfl
  | a :: t, r => by simp [take_own_length t r]

theorem drop_own_length {α : Type} : ∀ (l r : List α), (l ++ r).drop l.length = r
  | [], _ => rfl
  | a :: t, r => by simp [drop_own_length t r]

theorem decDigit_toNat : ∀ k, k < 10 → (decDigit k).toNat = 48 + k := by decide

theorem decDigit_isDigit : ∀ k, k < 10 → isDigitCh (decDigit k) = true := by decide

theorem digitsVal_append_one (l : List Char) (c : Char) :
    digitsVal (l ++ [c]) = digitsVal l * 10 + (c.toNat - 48) := by
  simp [digitsVal, List.foldl_append]

theorem decCharsAux_acc (f : Nat) : ∀ (n : Nat) (acc : List Char),
    decCharsAux f n acc = decCharsAux f n [] ++ acc := by
  induction f with
  | zero => intro n acc; simp [decCharsAux]
  | succ f ih =>
      intro n acc
      by_cases h : n < 10
      · simp [decCharsAux, h]
      · simp only [decCharsAux, if_neg h]
        rw [ih (n / 10) (decDigit (n % 10) :: acc), ih (n / 10) [decDigit (n % 10)]]
        simp

theorem decCharsAux_spec (f : Nat) : ∀ n, n < f →
    digitsVal (decCharsAux f n []) = n ∧ decCharsAux f n [] ≠ [] ∧
      ∀ c ∈ decCharsAux f n [], isDigitCh c = true := by
  induction f with
  | zero => intro n h; omega
  | succ f ih =>
      intro n h
      by_cases h10 : n < 10
      · refine ⟨?_, by simp [decCharsAux, h10], ?_⟩
        · simp [decCharsAux, h10, digitsVal, decDigit_toNat n h10]
        · intro c hc
          simp only [decCharsAux, if_pos h10, List.mem_singleton] at hc
          exact hc ▸ decDigit_isDigit n h10
      · obtain ⟨hv, hne, hdig⟩ := ih (n / 10) (by omega)
        have hstep : decCharsAux (f + 1) n [] =
            decCharsAux f (n / 10) [] ++ [decDigit (n % 10)] := by
          simp only [decCharsAux, if_neg h10]
          exact decCharsAux_acc f (n / 10) [decDigit (n % 10)]
        refine ⟨?_, by simp [hstep], ?_⟩
        · rw [hstep, digitsVal_append_one, hv, decDigit_toNat (n % 10) (by omega)]
          omega
        · intro c hc
          rw [hstep, List.mem_append] at hc
          rcases hc with hc | hc
          · exact hdig c hc
          · rw [List.mem_singleton] at hc
            exact hc ▸ decDigit_isDigit (n % 10) (by omega)

theorem decimalChars_val (n : Nat) : digitsVal (decimalChars n) = n :=
  (decCharsAux_spec (n + 1) n (by omega)).1

theorem decimalChars_ne_nil (n : Nat) : decimalChars n ≠ [] :=
  (decCharsAux_spec (n + 1) n (by omega)).2.1

theorem decimalChars_digits (n : Nat) : ∀ c ∈ decimalChars n, isDigitCh c = true :=
  (decCharsAux_spec (n + 1) n (by omega)).2.2

theorem digit_not_pyspace {c : Char} (h : isDigitCh c = true) : isPySpace c = false := by
  simp only [isDigitCh, Bool.and_eq_true, decide_eq_true_eq] at h
  simp only [isPySpace, Bool.or_eq_false_iff, decide_eq_false_iff_not]
  refine ⟨⟨⟨⟨⟨?_, ?_⟩, ?_⟩, ?_⟩, ?_⟩, ?_⟩ <;> (rintro rfl; revert h; decide)

theorem pyStrip_digits_crlf {l : List Char} (hne : l ≠ [])
    (hd : ∀ c ∈ l, isDigitCh c = true) : pyStrip (l ++ ['\r', '\n']) = l := by
  obtain ⟨c, t, rfl⟩ : ∃ c t, l = c :: t := by
    match l with
    | c :: t => exact ⟨c, t, rfl⟩
  have hfront : (c :: t ++ ['\r', '\n']).dropWhile isPySpace = c :: t ++ ['\r', '\n'] := by
    simp [List.dropWhile, digit_not_pyspace (hd c (List.mem_cons_self c t))]
  have hrev : (c :: t ++ ['\r', '\n']).reverse = '\n' :: '\r' :: (c :: t).reverse := by
    simp
  have hback : ('\n' :: '\r' :: (c :: t).reverse).dropWhile isPySpace = (c :: t).reverse := by
    rw [List.dropWhile_cons_of_pos (by decide), List.dropWhile_cons_of_pos (by decide)]
    exact dropWhile_of_all_neg (fun x hx =>
      digit_not_pyspace (hd x (List.mem_reverse.mp hx)))
  simp only [pyStrip, hfront, hrev, hback, List.reverse_reverse]

theorem digit_toNat_bounds {c : Char} (h : isDigitCh c = true) :
    48 ≤ c.toNat ∧ c.toNat ≤ 57 := by
  simpa [isDigitCh] using h

theorem digit_ne_minus {c : Char} (h : isDigitCh c = true) : c ≠ '-' := by
  rintro rfl; revert h; decide

theorem digit_ne_plus {c : Char} (h : isDigitCh c = true) : c ≠ '+' := by
  rintro rfl; revert h; decide

theorem pyInt_decimal (n : Nat) : pyInt (decimalChars n ++ ['\r', '\n']) = some (n : Int) := by
  obtain ⟨c, t, hct⟩ : ∃ c t, decimalChars n = c :: t := by
    match h : decimalChars n with
    | [] => exact absurd h (decimalChars_ne_nil n)
    | c :: t => exact ⟨c, t, rfl⟩
  have hdig := decimalChars_digits n
  have hc : isDigitCh c = true := hdig c (by rw [hct]; exact List.mem_cons_self c t)
  have hstrip := pyStrip_digits_crlf (decimalChars_ne_nil n) hdig
  have hall : (c :: t).all isDigitCh = true := by
    rw [← hct]; exact List.all_eq_true.mpr hdig
  unfold pyInt
  rw [hstrip, hct]
  simp only [digit_ne_minus hc, digit_ne_plus hc, hall, if_true, if_false, ite_true, ite_false]
  rw [← hct, decimalChars_val n]

theorem digit_ne_newline {c : Char} (h : isDigitCh c = true) : c ≠ '\n' := by
  rintro rfl; revert h; decide

theorem headerLoop_frame (n : Nat) (hn : n ≠ 0) (tail : List Char) :
    headerLoop (contentLengthHeader ++ decimalChars n ++ '\r' :: '\n' :: tail) =
      .ok ((n : Int), tail) := by
  have hnonl : '\n' ∉ contentLengthHeader ++ decimalChars n ++ ['\r'] := by
    intro hmem
    rcases List.mem_append.mp hmem with hmem | hmem
    · rcases List.mem_append.mp hmem with hmem | hmem
      · revert hmem; decide
      · exact digit_ne_newline (decimalChars_digits n _ hmem) rfl
    · revert hmem; decide
  have hsplit : splitLine (contentLengthHeader ++ decimalChars n ++ '\r' :: '\n' :: tail) =
      ((contentLengthHeader ++ decimalChars n ++ ['\r']) ++ ['\n'], tail) := by
    have := splitLine_newline (l := contentLengthHeader ++ decimalChars n ++ ['\r']) tail hnonl
    simpa using this
  have hne : contentLengthHeader ++ decimalChars n ++ '\r' :: '\n' :: tail ≠ [] := by
    simp [contentLengthHeader]
  have hline : (contentLengthHeader ++ decimalChars n ++ ['\r']) ++ ['\n'] =
      contentLengthHeader ++ (decimalChars n ++ ['\r', '\n']) := by simp
  have htake : ((contentLengthHeader ++ decimalChars n ++ ['\r']) ++ ['\n']).take 16 =
      contentLengthHeader := by
    rw [hline]
    have h16 : contentLengthHeader.length = 16 := by decide
    rw [← h16, take_own_length]
  have hdrop : ((contentLengthHeader ++ decimalChars n ++ ['\r']) ++ ['\n']).drop 16 =
      decimalChars n ++ ['\r', '\n'] := by
    rw [hline]
    have h16 : contentLengthHeader.length = 16 := by decide
    rw [← h16, drop_own_length]
  have hfuel : (contentLengthHeader ++ decimalChars n ++ '\r' :: '\n' :: tail).length + 1 =
      (contentLengthHeader ++ decimalChars n ++ '\r' :: '\n' :: tail).length + 1 := rfl
  unfold headerLoop
  rw [show (contentLengthHeader ++ decimalChars n ++ '\r' :: '\n' :: tail).length + 1 =
    ((contentLengthHeader ++ decimalChars n ++ '\r' :: '\n' :: tail).length) + 1 from rfl]
  unfold headerLoopAux
  rw [if_neg hne]
  simp only [hsplit, htake, hdrop, if_pos, pyInt_decimal n]
  have : ((n : Int) = 0) = False := by
    simp only [eq_iff_iff, iff_false]
    exact_mod_cast hn
  simp [this]

theorem blankLoop_crlf (body : List Char) : blankLoop ('\r' :: '\n' :: body) = .ok body := by
  have hsplit : splitLine ('\r' :: '\n' :: body) = (['\r', '\n'], body) := by
    simp [splitLine]
  unfold blankLoop
  unfold blankLoopAux
  simp only [List.length_cons, hsplit]
  rw [if_neg (by simp), if_pos (by decide)]

theorem hexDigit_printable : ∀ k, k < 16 → 32 ≤ (hexDigit k).toNat ∧ (hexDigit k).toNat ≤ 126 := by
  decide

theorem hex4Chars_printable (n : Nat) (c : Char) (h : c ∈ hex4Chars n) :
    32 ≤ c.toNat ∧ c.toNat ≤ 126 := by
  have h16 : ∀ k : Nat, k % 16 < 16 := fun k => Nat.mod_lt _ (by omega)
  fin_cases h <;> exact hexDigit_printable _ (h16 _)

theorem escapeChar_printable (c c' : Char) (h : c' ∈ escapeChar c) :
    32 ≤ c'.toNat ∧ c'.toNat ≤ 126 := by
  unfold escapeChar at h
  split_ifs at h with h1 h2 h3 h4 h5 h6 h7 h8 h9
  · fin_cases h <;> decide
  · fin_cases h <;> decide
  · fin_cases h <;> decide
  · fin_cases h <;> decide
  · fin_cases h <;> decide
  · fin_cases h <;> decide
  · fin_cases h <;> decide
  · rw [List.mem_singleton] at h
    exact h ▸ h8
  · simp only [List.mem_cons] at h
    rcases h with rfl | rfl | h
    · decide
    · decide
    · exact hex4Chars_printable _ _ h
  · simp only [List.cons_append, List.mem_cons, List.mem_append] at h
    rcases h with rfl | rfl | h | rfl | rfl | h
    · decide
    · decide
    · exact hex4Chars_printable _ _ h
    · decide
    · decide
    · exact hex4Chars_printable _ _ h

theorem escStr_printable : ∀ (cs : List Char) (c : Char), c ∈ escStr cs →
    32 ≤ c.toNat ∧ c.toNat ≤ 126
  | [], c, h => by simp [escStr] at h
  | x :: xs, c, h => by
      rw [escStr, List.mem_append] at h
      rcases h with h | h
      · exact escapeChar_printable x c h
      · exact escStr_printable xs c h

theorem intChars_printable (i : Int) (c : Char) (h : c ∈ intChars i) :
    32 ≤ c.toNat ∧ c.toNat ≤ 126 := by
  unfold intChars at h
  have hdig : ∀ c ∈ decimalChars i.natAbs, 32 ≤ c.toNat ∧ c.toNat ≤ 126 := by
    intro c hc
    have := digit_toNat_bounds (decimalChars_digits i.natAbs c hc)
    omega
  split_ifs at h
  · simp only [List.mem_cons] at h
    rcases h with rfl | h
    · decide
    · exact hdig c h
  · exact hdig c h

mutual
theorem dumpVal_printable : ∀ (m : Json), ∀ c ∈ dumpVal m, 32 ≤ c.toNat ∧ c.toNat ≤ 126
  | .null, c, hc => by fin_cases hc <;> decide
  | .bool true, c, hc => by fin_cases hc <;> decide
  | .bool false, c, hc => by fin_cases hc <;> decide
  | .num n, c, hc => intChars_printable n c hc
  | .str s, c, hc => by
      rw [dumpVal, List.mem_cons, List.mem_append, List.mem_singleton] at hc
      rcases hc with rfl | hc | rfl
      · decide
      · exact escStr_printable s.data c hc
      · decide
  | .arr [], c, hc => by fin_cases hc <;> decide
  | .arr (x :: xs), c, hc => by
      rw [dumpVal, List.mem_cons, List.append_assoc, List.mem_append, List.mem_append,
        List.mem_singleton] at hc
      rcases hc with rfl | hc | hc | rfl
      · decide
      · exact dumpVal_printable x c hc
      · exact dumpTailItems_printable xs c hc
      · decide
  | .obj [], c, hc => by fin_cases hc <;> decide
  | .obj (p :: ps), c, hc => by
      rw [dumpVal, List.mem_cons, List.append_assoc, List.mem_append, List.mem_append,
        List.mem_singleton] at hc
      rcases hc with rfl | hc | hc | rfl
      · decide
      · exact dumpPair_printable p c hc
      · exact dumpTailPairs_printable ps c hc
      · decide

theorem dumpTailItems_printable : ∀ (xs : List Json), ∀ c ∈ dumpTailItems xs,
    32 ≤ c.toNat ∧ c.toNat ≤ 126
  | [], c, hc => by simp [dumpTailItems] at hc
  | x :: xs, c, hc => by
      rw [dumpTailItems, List.mem_cons, List.mem_cons, List.mem_append] at hc
      rcases hc with rfl | rfl | hc | hc
      · decide
      · decide
      · exact dumpVal_printable x c hc
      · exact dumpTailItems_printable xs c hc

theorem dumpPair_printable : ∀ (p : String × Json), ∀ c ∈ dumpPair p,
    32 ≤ c.toNat ∧ c.toNat ≤ 126
  | (k, v), c, hc => by
      rw [dumpPair, List.mem_cons, List.mem_append, List.mem_cons, List.mem_cons,
        List.mem_cons] at hc
      rcases hc with rfl | hc | rfl | rfl | rfl | hc
      · decide
      · exact escStr_printable k.data c hc
      · decide
      · decide
      · decide
      · exact dumpVal_printable v c hc

theorem dumpTailPairs_printable : ∀ (ps : List (String × Json)), ∀ c ∈ dumpTailPairs ps,
    32 ≤ c.toNat ∧ c.toNat ≤ 126
  | [], c, hc => by simp [dumpTailPairs] at hc
  | p :: ps, c, hc => by
      rw [dumpTailPairs, List.mem_cons, List.mem_cons, List.mem_append] at hc
      rcases hc with rfl | rfl | hc | hc
      · decide
      · decide
      · exact dumpPair_printable p c hc
      · exact dumpTailPairs_printable ps c hc
end

theorem utf8Len_of_printable {l : List Char} (h : ∀ c ∈ l, 32 ≤ c.toNat ∧ c.toNat ≤ 126) :
    utf8Len l = l.length := by
  induction l with
  | nil => rfl
  | cons c t ih =>
      have hc := h c (List.mem_cons_self c t)
      have hw : utf8Width c = 1 := by unfold utf8Width; rw [if_pos (by omega)]
      have ht := ih (fun x hx => h x (List.mem_cons_of_mem c hx))
      show utf8Width c + utf8Len t = t.length + 1
      rw [hw, ht]
      omega

theorem utf8Len_dumpVal (m : Json) : utf8Len (dumpVal m) = (dumpVal m).length :=
  utf8Len_of_printable (dumpVal_printable m)

theorem newline_not_mem_dumpVal (m : Json) : '\n' ∉ dumpVal m := by
  intro h
  have := dumpVal_printable m '\n' h
  revert this; decide

theorem dumpVal_ne_nil : ∀ m : Json, dumpVal m ≠ []
  | .null => by simp [dumpVal]
  | .bool true => by simp [dumpVal]
  | .bool false => by simp [dumpVal]
  | .num n => by
      unfold dumpVal intChars
      split_ifs
      · simp
      · exact decimalChars_ne_nil _
  | .str s => by simp [dumpVal]
  | .arr [] => by simp [dumpVal]
  | .arr (x :: xs) => by simp [dumpVal]
  | .obj [] => by simp [dumpVal]
  | .obj (p :: ps) => by simp [dumpVal]

theorem utf8Len_dumpVal_pos (m : Json) : 0 < utf8Len (dumpVal m) := by
  rw [utf8Len_dumpVal]
  exact List.length_pos.mpr (dumpVal_ne_nil m)

theorem skipWs_cons_neg {c : Char} (t : List Char) (h : isJsonWs c = false) :
    skipWs (c :: t) = c :: t := by
  simp [skipWs, h]

theorem hexVal_hexDigit : ∀ k, k < 16 → hexVal (hexDigit k) = some k := by decide

theorem char_toNat_valid (c : Char) :
    c.toNat < 0xd800 ∨ (0xdfff < c.toNat ∧ c.toNat < 0x110000) := c.valid

theorem uEscape_nonsurrogate (f : Nat) (acc rest : List Char) (n : Nat) (hn : n < 0x10000)
    (hns : ¬(0xd800 ≤ n ∧ n ≤ 0xdfff)) :
    parseStrBodyAux (f + 1) acc (('\\' :: 'u' :: hex4Chars n) ++ rest) =
      parseStrBodyAux f (Char.ofNat n :: acc) rest := by
  have hmod : ∀ k : Nat, k % 16 < 16 := fun k => Nat.mod_lt _ (by omega)
  simp only [hex4Chars, List.cons_append, List.nil_append]
  simp only [parseStrBodyAux]
  rw [hexVal_hexDigit _ (hmod _), hexVal_hexDigit _ (hmod _), hexVal_hexDigit _ (hmod _),
    hexVal_hexDigit _ (hmod _)]
  simp only
  have hrec : ((n / 4096 % 16 * 16 + n / 256 % 16) * 16 + n / 16 % 16) * 16 + n % 16 = n := by
    omega
  rw [hrec, if_neg (by omega), if_neg (by omega)]

theorem uEscape_pair (f : Nat) (acc rest : List Char) (hi lo : Nat)
    (hhi : 0xd800 ≤ hi ∧ hi ≤ 0xdbff) (hlo : 0xdc00 ≤ lo ∧ lo ≤ 0xdfff) :
    parseStrBodyAux (f + 1) acc
        (('\\' :: 'u' :: hex4Chars hi) ++ (('\\' :: 'u' :: hex4Chars lo) ++ rest)) =
      parseStrBodyAux f (Char.ofNat (0x10000 + (hi - 0xd800) * 0x400 + (lo - 0xdc00)) :: acc)
        rest := by
  have hmod : ∀ k : Nat, k % 16 < 16 := fun k => Nat.mod_lt _ (by omega)
  have hihi : hi < 0x10000 := by omega
  have hllo : lo < 0x10000 := by omega
  simp only [hex4Chars, List.cons_append, List.nil_append]
  simp only [parseStrBodyAux]
  rw [hexVal_hexDigit _ (hmod _), hexVal_hexDigit _ (hmod _), hexVal_hexDigit _ (hmod _),
    hexVal_hexDigit _ (hmod _)]
  simp only
  have hrec1 : ((hi / 4096 % 16 * 16 + hi / 256 % 16) * 16 + hi / 16 % 16) * 16 + hi % 16 = hi := by
    omega
  rw [hrec1, if_pos (by omega)]
  rw [hexVal_hexDigit _ (hmod _), hexVal_hexDigit _ (hmod _), hexVal_hexDigit _ (hmod _),
    hexVal_hexDigit _ (hmod _)]
  simp only
  have hrec2 : ((lo / 4096 % 16 * 16 + lo / 256 % 16) * 16 + lo / 16 % 16) * 16 + lo % 16 = lo := by
    omega
  rw [hrec2, if_pos (by omega)]

theorem parseStrBodyAux_escape (f : Nat) (acc rest : List Char) (c : Char) :
    parseStrBodyAux (f + 1) acc (escapeChar c ++ rest) = parseStrBodyAux f (c :: acc) rest := by
  have hmod : ∀ k : Nat, k % 16 < 16 := fun k => Nat.mod_lt _ (by omega)
  unfold escapeChar
  split_ifs with h1 h2 h3 h4 h5 h6 h7 h8 h9
  · subst h1; simp [parseStrBodyAux, unescapeCh]
  · subst h2; simp [parseStrBodyAux, unescapeCh]
  · subst h3; simp [parseStrBodyAux, unescapeCh]
  · subst h4; simp [parseStrBodyAux, unescapeCh]
  · subst h5; simp [parseStrBodyAux, unescapeCh]
  · subst h6; simp [parseStrBodyAux, unescapeCh]
  · subst h7; simp [parseStrBodyAux, unescapeCh]
  · -- printable ASCII, not quote or backslash
    simp only [List.cons_append, List.nil_append]
    simp only [parseStrBodyAux]
    split
    all_goals first
      | (rename_i heq; rw [List.cons.injEq] at heq; exact absurd heq.1 h1)
      | (rename_i heq; rw [List.cons.injEq] at heq; exact absurd heq.1 h2)
      | (rename_i heq; rw [List.cons.injEq] at heq; obtain ⟨rfl, rfl⟩ := heq
         rw [if_neg (by omega)])
      | (rename_i heq; simp at heq)
  · -- BMP escape
    have hv := char_toNat_valid c
    rw [List.cons_append, List.cons_append, ← List.cons_append, ← List.cons_append]
    rw [uEscape_nonsurrogate f acc rest c.toNat (by omega) (by omega), Char.ofNat_toNat]
  · -- astral escape: surrogate pair
    have hv := char_toNat_valid c
    have hge : 0x10000 ≤ c.toNat := by omega
    have hlt : c.toNat < 0x110000 := by omega
    simp only [List.append_assoc]
    rw [uEscape_pair f acc rest _ _ (by omega) (by omega)]
    have harg : 0x10000 + (0xd800 + (c.toNat - 0x10000) / 0x400 - 0xd800) * 0x400 +
        (0xdc00 + (c.toNat - 0x10000) % 0x400 - 0xdc00) = c.toNat := by omega
    rw [harg, Char.ofNat_toNat]

theorem parseStrBodyAux_escStr : ∀ (cs : List Char) (f : Nat) (acc rest : List Char),
    cs.length < f →
    parseStrBodyAux f acc (escStr cs ++ '"' :: rest) = some (⟨acc.reverse ++ cs⟩, rest)
  | [], f, acc, rest, hf => by
      match f, hf with
      | f + 1, _ =>
        simp [escStr, parseStrBodyAux]
  | c :: cs, f, acc, rest, hf => by
      match f, hf with
      | f + 1, hf =>
        rw [escStr, List.append_assoc, parseStrBodyAux_escape,
          parseStrBodyAux_escStr cs f (c :: acc) rest (by simp at hf; omega)]
        simp

theorem escStr_length_ge : ∀ cs : List Char, cs.length ≤ (escStr cs).length
  | [] => Nat.le_refl 0
  | c :: cs => by
      have h1 : 1 ≤ (escapeChar c).length := by
        unfold escapeChar
        split_ifs <;> simp
      have := escStr_length_ge cs
      simp only [escStr, List.length_append, List.length_cons]
      omega

theorem parseStrBody_escStr (cs rest : List Char) :
    parseStrBody [] (escStr cs ++ '"' :: rest) = some (⟨cs⟩, rest) := by
  unfold parseStrBody
  rw [parseStrBodyAux_escStr cs _ [] rest
    (by simp only [List.length_append, List.length_cons]
        have := escStr_length_ge cs
        omega)]
  simp

theorem takeWhile_digit_run {ds : List Char} (rest : List Char)
    (hds : ∀ c ∈ ds, isDigitCh c = true) (hrest : noDigitStart rest = true) :
    (ds ++ rest).takeWhile isDigitCh = ds ∧ (ds ++ rest).dropWhile isDigitCh = rest := by
  induction ds with
  | nil =>
      simp only [List.nil_append]
      match rest, hrest with
      | [], _ => exact ⟨rfl, rfl⟩
      | c :: t, hrest =>
          have hc : isDigitCh c = false := by
            simp only [noDigitStart, Bool.not_eq_true'] at hrest
            exact hrest
          simp [List.takeWhile_cons, List.dropWhile_cons, hc]
  | cons d ds ih =>
      have hd : isDigitCh d = true := hds d (List.mem_cons_self d ds)
      obtain ⟨h1, h2⟩ := ih (fun c hc => hds c (List.mem_cons_of_mem d hc))
      simp [List.takeWhile_cons, List.dropWhile_cons, hd, h1, h2]

theorem parseIntFrom_intChars (n : Int) (rest : List Char) (hrest : noDigitStart rest = true) :
    parseIntFrom (intChars n ++ rest) = some (.num n, rest) := by
  by_cases hn : n < 0
  · have harg : intChars n ++ rest = '-' :: (decimalChars n.natAbs ++ rest) := by
      simp [intChars, hn]
    rw [harg]
    obtain ⟨ht, hd⟩ := takeWhile_digit_run rest (decimalChars_digits n.natAbs) hrest
    simp only [parseIntFrom, ht, hd]
    rw [if_neg (by simp [decimalChars_ne_nil n.natAbs])]
    rw [decimalChars_val]
    have : -((n.natAbs : Nat) : Int) = n := by omega
    rw [this]
  · obtain ⟨d, t, hdt⟩ : ∃ d t, decimalChars n.natAbs = d :: t := by
      match h : decimalChars n.natAbs with
      | [] => exact absurd h (decimalChars_ne_nil n.natAbs)
      | d :: t => exact ⟨d, t, rfl⟩
    have hd : isDigitCh d = true :=
      decimalChars_digits n.natAbs d (by rw [hdt]; exact List.mem_cons_self d t)
    have harg : intChars n ++ rest = d :: (t ++ rest) := by
      simp [intChars, hn, hdt]
    rw [harg]
    obtain ⟨ht', hd'⟩ := takeWhile_digit_run rest (decimalChars_digits n.natAbs) hrest
    rw [hdt] at ht' hd'
    simp only [List.cons_append] at ht' hd'
    unfold parseIntFrom
    split
    · rename_i heq
      rw [List.cons.injEq] at heq
      exact absurd heq.1 (digit_ne_minus hd)
    · rename_i heq
      rw [ht', hd']
      rw [if_neg (by simp)]
      have hv : digitsVal (d :: t) = n.natAbs := by rw [← hdt]; exact decimalChars_val n.natAbs
      rw [hv]
      have : ((n.natAbs : Nat) : Int) = n := by omega
      rw [this]

theorem digit_head_facts {c : Char} (h : isDigitCh c = true) :
    isJsonWs c = false ∧ c ≠ '"' ∧ c ≠ 'n' ∧ c ≠ 't' ∧ c ≠ 'f' ∧ c ≠ '[' ∧ c ≠ '\x7b' ∧
      c ≠ ']' ∧ c ≠ '\x7d' := by
  have hb := digit_toNat_bounds h
  refine ⟨?_, ?_, ?_, ?_, ?_, ?_, ?_, ?_, ?_⟩
  · simp only [isJsonWs, Bool.or_eq_false_iff, decide_eq_false_iff_not]
    refine ⟨⟨⟨?_, ?_⟩, ?_⟩, ?_⟩ <;> (rintro rfl; revert hb; decide)
  all_goals (rintro rfl; revert hb; decide)

theorem parseVal_ws : ∀ (f : Nat) {c : Char} (cs : List Char), isJsonWs c = true →
    parseVal f (c :: cs) = parseVal f cs
  | 0, c, cs, h => rfl
  | f + 1, c, cs, h => by
      simp only [parseVal, skipWs, h, if_true]

theorem parseItems_ws (f : Nat) {c : Char} (cs : List Char) (h : isJsonWs c = true) :
    parseItems f (c :: cs) = parseItems f cs := by
  match f with
  | 0 => rfl
  | f + 1 =>
      simp only [parseItems]
      rw [parseVal_ws f cs h]

theorem parsePairs_ws (f : Nat) {c : Char} (cs : List Char) (h : isJsonWs c = true) :
    parsePairs f (c :: cs) = parsePairs f cs := by
  match f with
  | 0 => rfl
  | f + 1 =>
      simp only [parsePairs, skipWs, h, if_true]

theorem parseVal_step_default (f : Nat) (c : Char) (t : List Char)
    (hws : isJsonWs c = false) (h1 : c ≠ 'n') (h2 : c ≠ 't') (h3 : c ≠ 'f')
    (h4 : c ≠ '"') (h5 : c ≠ '[') (h6 : c ≠ '\x7b') :
    parseVal (f + 1) (c :: t) = parseIntFrom (c :: t) := by
  simp only [parseVal]
  rw [skipWs_cons_neg t hws]
  split
  · rename_i heq; rw [List.cons.injEq] at heq; exact absurd heq.1 h1
  · rename_i heq; rw [List.cons.injEq] at heq; exact absurd heq.1 h2
  · rename_i heq; rw [List.cons.injEq] at heq; exact absurd heq.1 h3
  · rename_i heq; rw [List.cons.injEq] at heq; exact absurd heq.1 h4
  · rename_i heq; rw [List.cons.injEq] at heq; exact absurd heq.1 h5
  · rename_i heq; rw [List.cons.injEq] at heq; exact absurd heq.1 h6
  · rfl

theorem parseVal_step_arr (f : Nat) (c0 : Char) (t : List Char)
    (hws : isJsonWs c0 = false) (hne : c0 ≠ ']') :
    parseVal (f + 1) ('[' :: c0 :: t) =
      (parseItems f (c0 :: t)).map (fun p => (Json.arr p.1, p.2)) := by
  simp only [parseVal]
  rw [skipWs_cons_neg (c0 :: t) (by decide)]
  simp only [skipWs_cons_neg t hws]
  rw [if_neg hne]

theorem parseVal_step_obj (f : Nat) (c0 : Char) (t : List Char)
    (hws : isJsonWs c0 = false) (hne : c0 ≠ '\x7d') :
    parseVal (f + 1) ('\x7b' :: c0 :: t) =
      (parsePairs f (c0 :: t)).map (fun p => (Json.obj p.1, p.2)) := by
  simp only [parseVal]
  rw [skipWs_cons_neg (c0 :: t) (by decide)]
  simp only [skipWs_cons_neg t hws]
  rw [if_neg hne]

theorem dumpVal_head (m : Json) :
    ∃ c t, dumpVal m = c :: t ∧ (isJsonWs c = false ∧ c ≠ ']' ∧ c ≠ '\x7d') := by
  cases m with
  | bool b => cases b <;> exact ⟨_, _, rfl, by decide⟩
  | num n =>
      by_cases hn : n < 0
      · refine ⟨'-', decimalChars n.natAbs, by simp [dumpVal, intChars, hn], by decide⟩
      · obtain ⟨d, t, hdt⟩ : ∃ d t, decimalChars n.natAbs = d :: t := by
          match h : decimalChars n.natAbs with
          | [] => exact absurd h (decimalChars_ne_nil n.natAbs)
          | d :: t => exact ⟨d, t, rfl⟩
        have hd : isDigitCh d = true :=
          decimalChars_digits n.natAbs d (by rw [hdt]; exact List.mem_cons_self d t)
        obtain ⟨hws, _, _, _, _, _, _, hbr, hbc⟩ := digit_head_facts hd
        exact ⟨d, t, by simp [dumpVal, intChars, hn, hdt], hws, hbr, hbc⟩
  | arr xs => cases xs <;> exact ⟨_, _, rfl, by decide⟩
  | obj ps => cases ps <;> exact ⟨_, _, rfl, by decide⟩
  | _ => exact ⟨_, _, rfl, by decide⟩

theorem noDigitStart_tailItems (xs : List Json) (rest : List Char) :
    noDigitStart (dumpTailItems xs ++ ']' :: rest) = true := by
  cases xs with
  | nil => rfl
  | cons y ys => rfl

theorem noDigitStart_tailPairs (ps : List (String × Json)) (rest : List Char) :
    noDigitStart (dumpTailPairs ps ++ '\x7d' :: rest) = true := by
  cases ps with
  | nil => rfl
  | cons q qs => rfl

theorem parseVal_step_str (f : Nat) (r : List Char) :
    parseVal (f + 1) ('"' :: r) = (parseStrBody [] r).map (fun p => (Json.str p.1, p.2)) := by
  simp only [parseVal]
  rw [skipWs_cons_neg r (by decide)]
  rfl

theorem skipWs_rbracket (rest : List Char) : skipWs (']' :: rest) = ']' :: rest :=
  skipWs_cons_neg rest (by decide)

theorem skipWs_rbrace (rest : List Char) : skipWs ('\x7d' :: rest) = '\x7d' :: rest :=
  skipWs_cons_neg rest (by decide)

theorem skipWs_comma (rest : List Char) : skipWs (',' :: rest) = ',' :: rest :=
  skipWs_cons_neg rest (by decide)

theorem skipWs_colon (rest : List Char) : skipWs (':' :: rest) = ':' :: rest :=
  skipWs_cons_neg rest (by decide)

mutual
theorem rt_val : ∀ (m : Json) (f : Nat) (rest : List Char),
    (dumpVal m).length < f → noDigitStart rest = true →
    parseVal f (dumpVal m ++ rest) = some (m, rest)
  | .null, f, rest, hf, _ => by
      match f, hf with
      | f + 1, _ => simp [parseVal, dumpVal, skipWs, isJsonWs]
  | .bool true, f, rest, hf, _ => by
      match f, hf with
      | f + 1, _ => simp [parseVal, dumpVal, skipWs, isJsonWs]
  | .bool false, f, rest, hf, _ => by
      match f, hf with
      | f + 1, _ => simp [parseVal, dumpVal, skipWs, isJsonWs]
  | .num n, f, rest, hf, hrest => by
      match f, hf with
      | f + 1, _ =>
        obtain ⟨c0, t0, hx, hws, _, _⟩ := dumpVal_head (.num n)
        have hnum : dumpVal (Json.num n) = intChars n := rfl
        have hmm : c0 ≠ 'n' ∧ c0 ≠ 't' ∧ c0 ≠ 'f' ∧ c0 ≠ '"' ∧ c0 ≠ '[' ∧ c0 ≠ '\x7b' := by
          rw [hnum] at hx
          unfold intChars at hx
          by_cases hn : n < 0
          · rw [if_pos hn] at hx
            rw [List.cons.injEq] at hx
            obtain ⟨rfl, _⟩ := hx
            exact ⟨by decide, by decide, by decide, by decide, by decide, by decide⟩
          · rw [if_neg hn] at hx
            have hd : isDigitCh c0 = true := by
              apply decimalChars_digits n.natAbs
              rw [hx]
              exact List.mem_cons_self c0 t0
            obtain ⟨_, a4, a1, a2, a3, a5, a6, _, _⟩ := digit_head_facts hd
            exact ⟨a1, a2, a3, a4, a5, a6⟩
        obtain ⟨b1, b2, b3, b4, b5, b6⟩ := hmm
        rw [show dumpVal (Json.num n) ++ rest = c0 :: (t0 ++ rest) by rw [hx]; simp]
        rw [parseVal_step_default f c0 (t0 ++ rest) hws b1 b2 b3 b4 b5 b6]
        rw [show c0 :: (t0 ++ rest) = intChars n ++ rest by rw [← hnum, hx]; simp]
        exact parseIntFrom_intChars n rest hrest
  | .str s, f, rest, hf, _ => by
      match f, hf with
      | f + 1, _ =>
        have harg : dumpVal (Json.str s) ++ rest =
            '"' :: (escStr s.data ++ '"' :: rest) := by
          simp [dumpVal]
        rw [harg, parseVal_step_str, parseStrBody_escStr s.data rest]
        rfl
  | .arr [], f, rest, hf, _ => by
      match f, hf with
      | f + 1, _ => simp [parseVal, dumpVal, skipWs, isJsonWs]
  | .arr (x :: xs), f, rest, hf, _ => by
      match f, hf with
      | f + 1, hf =>
        obtain ⟨c0, t0, hx, hws, hbr, _⟩ := dumpVal_head x
        have harg : dumpVal (Json.arr (x :: xs)) ++ rest =
            '[' :: c0 :: (t0 ++ (dumpTailItems xs ++ ']' :: rest)) := by
          simp [dumpVal, hx]
        rw [harg, parseVal_step_arr f c0 (t0 ++ (dumpTailItems xs ++ ']' :: rest)) hws hbr]
        have hlen : (dumpVal x).length + (dumpTailItems xs).length + 1 < f := by
          simp only [dumpVal, List.length_cons, List.append_assoc, List.length_append] at hf
          omega
        rw [show c0 :: (t0 ++ (dumpTailItems xs ++ ']' :: rest)) =
          dumpVal x ++ (dumpTailItems xs ++ ']' :: rest) by rw [hx]; simp]
        rw [rt_items x xs f rest hlen]
        rfl
  | .obj [], f, rest, hf, _ => by
      match f, hf with
      | f + 1, _ => simp [parseVal, dumpVal, skipWs, isJsonWs]
  | .obj (p :: ps), f, rest, hf, _ => by
      match f, hf with
      | f + 1, hf =>
        have hphead : ∃ t0, dumpPair p = '"' :: t0 := by
          obtain ⟨k, v⟩ := p
          exact ⟨_, rfl⟩
        obtain ⟨t0, hp⟩ := hphead
        have harg : dumpVal (Json.obj (p :: ps)) ++ rest =
            '\x7b' :: '"' :: (t0 ++ (dumpTailPairs ps ++ '\x7d' :: rest)) := by
          simp [dumpVal, hp]
        rw [harg, parseVal_step_obj f '"' (t0 ++ (dumpTailPairs ps ++ '\x7d' :: rest))
          (by decide) (by decide)]
        have hlen : (dumpPair p).length + (dumpTailPairs ps).length + 1 < f := by
          simp only [dumpVal, List.length_cons, List.append_assoc, List.length_append] at hf
          omega
        rw [show '"' :: (t0 ++ (dumpTailPairs ps ++ '\x7d' :: rest)) =
          dumpPair p ++ (dumpTailPairs ps ++ '\x7d' :: rest) by rw [hp]; simp]
        rw [rt_pairs p ps f rest hlen]
        rfl
termination_by m _ _ _ _ => sizeOf m
decreasing_by all_goals (simp_wf; try omega)

theorem rt_items : ∀ (x : Json) (xs : List Json) (f : Nat) (rest : List Char),
    (dumpVal x).length + (dumpTailItems xs).length + 1 < f →
    parseItems f (dumpVal x ++ (dumpTailItems xs ++ ']' :: rest)) = some (x :: xs, rest)
  | x, [], f, rest, hf => by
      match f, hf with
      | f + 1, hf =>
        simp only [parseItems]
        rw [show dumpTailItems [] ++ ']' :: rest = ']' :: rest from rfl]
        have hfx : (dumpVal x).length < f := by
          simp only [dumpTailItems, List.length_nil] at hf
          omega
        rw [rt_val x f (']' :: rest) hfx rfl]
        rfl
  | x, y :: ys, f, rest, hf => by
      match f, hf with
      | f + 1, hf =>
        simp only [parseItems]
        have hti : dumpTailItems (y :: ys) ++ ']' :: rest =
            ',' :: ' ' :: (dumpVal y ++ (dumpTailItems ys ++ ']' :: rest)) := by
          simp [dumpTailItems]
        rw [hti]
        have hfx : (dumpVal x).length < f := by
          simp only [dumpTailItems, List.length_cons, List.length_append] at hf
          omega
        rw [rt_val x f (',' :: ' ' :: (dumpVal y ++ (dumpTailItems ys ++ ']' :: rest))) hfx rfl]
        have hlen2 : (dumpVal y).length + (dumpTailItems ys).length + 1 < f := by
          simp only [dumpTailItems, List.length_cons, List.length_append] at hf
          have h2 : 0 < (dumpVal x).length := List.length_pos.mpr (dumpVal_ne_nil x)
          omega
        have hnext : parseItems f (' ' :: (dumpVal y ++ (dumpTailItems ys ++ ']' :: rest))) =
            some (y :: ys, rest) := by
          rw [parseItems_ws f (dumpVal y ++ (dumpTailItems ys ++ ']' :: rest)) (by decide),
            rt_items y ys f rest hlen2]
        simp [skipWs_comma, hnext]
termination_by x xs _ _ _ => sizeOf x + sizeOf xs
decreasing_by all_goals (simp_wf; try omega)

theorem rt_pairs : ∀ (p : String × Json) (ps : List (String × Json)) (f : Nat) (rest : List Char),
    (dumpPair p).length + (dumpTailPairs ps).length + 1 < f →
    parsePairs f (dumpPair p ++ (dumpTailPairs ps ++ '\x7d' :: rest)) = some (p :: ps, rest)
  | (k, v), [], f, rest, hf => by
      match f, hf with
      | f + 1, hf =>
        have hlenv : (dumpVal v).length < f := by
          simp only [dumpPair, List.length_cons, List.length_append] at hf
          omega
        simp only [parsePairs]
        rw [show dumpPair (k, v) ++ (dumpTailPairs [] ++ '\x7d' :: rest) =
            '"' :: (escStr k.data ++ '"' :: (':' :: ' ' :: (dumpVal v ++ '\x7d' :: rest)))
          by simp [dumpPair, dumpTailPairs]]
        rw [skipWs_cons_neg _ (by decide)]
        have h1 := parseStrBody_escStr k.data (':' :: ' ' :: (dumpVal v ++ '\x7d' :: rest))
        have h2 : parseVal f (' ' :: (dumpVal v ++ '\x7d' :: rest)) =
            some (v, '\x7d' :: rest) := by
          rw [parseVal_ws f (dumpVal v ++ '\x7d' :: rest) (by decide),
            rt_val v f ('\x7d' :: rest) hlenv (by rfl)]
        simp [h1, skipWs_colon, h2, skipWs_rbrace]
  | (k, v), (k2, v2) :: qs, f, rest, hf => by
      match f, hf with
      | f + 1, hf =>
        have hlenv : (dumpVal v).length < f := by
          simp only [dumpPair, List.length_cons, List.length_append] at hf
          omega
        have hlen2 : (dumpPair (k2, v2)).length + (dumpTailPairs qs).length + 1 < f := by
          simp only [dumpTailPairs, List.length_cons, List.length_append] at hf
          omega
        simp only [parsePairs]
        rw [show dumpPair (k, v) ++ (dumpTailPairs ((k2, v2) :: qs) ++ '\x7d' :: rest) =
            '"' :: (escStr k.data ++ '"' :: (':' :: ' ' :: (dumpVal v ++
              (',' :: ' ' :: (dumpPair (k2, v2) ++ (dumpTailPairs qs ++ '\x7d' :: rest))))))
          by simp [dumpPair, dumpTailPairs]]
        rw [skipWs_cons_neg _ (by decide)]
        have h1 := parseStrBody_escStr k.data (':' :: ' ' :: (dumpVal v ++
          (',' :: ' ' :: (dumpPair (k2, v2) ++ (dumpTailPairs qs ++ '\x7d' :: rest)))))
        have h2 : parseVal f (' ' :: (dumpVal v ++
            (',' :: ' ' :: (dumpPair (k2, v2) ++ (dumpTailPairs qs ++ '\x7d' :: rest))))) =
            some (v, ',' :: ' ' ::
              (dumpPair (k2, v2) ++ (dumpTailPairs qs ++ '\x7d' :: rest))) := by
          rw [parseVal_ws f (dumpVal v ++ (',' :: ' ' ::
              (dumpPair (k2, v2) ++ (dumpTailPairs qs ++ '\x7d' :: rest)))) (by decide),
            rt_val v f (',' :: ' ' ::
              (dumpPair (k2, v2) ++ (dumpTailPairs qs ++ '\x7d' :: rest))) hlenv (by rfl)]
        have h3 : parsePairs f
            (' ' :: (dumpPair (k2, v2) ++ (dumpTailPairs qs ++ '\x7d' :: rest))) =
            some ((k2, v2) :: qs, rest) := by
          rw [parsePairs_ws f (dumpPair (k2, v2) ++ (dumpTailPairs qs ++ '\x7d' :: rest))
            (by decide), rt_pairs (k2, v2) qs f rest hlen2]
        simp [h1, skipWs_colon, h2, skipWs_comma, h3]
termination_by p ps _ _ _ => sizeOf p + sizeOf ps
decreasing_by all_goals (simp_wf; try omega)
end

theorem json_loads_dumps (m : Json) : json_loads (json_dumps m) = some m := by
  unfold json_loads json_dumps
  have h := rt_val m ((dumpVal m).length + 1) [] (by omega) rfl
  rw [List.append_nil] at h
  rw [h]
  rfl

/-- C2: framing round-trip — for any JSON-serializable message `m`, reading
(`JsonReader.read`) the frame produced by writing `m` (`JsonWriter.write`)
yields a value equal to `m` (and consumes the whole frame). -/
theorem framing_round_trip (m : Json) :
    ∃ frame, JsonWriter_write false m = .ok frame ∧
      JsonReader_read false frame = .ok (m, []) := by
  refine ⟨_, rfl, ?_⟩
  have hN : utf8Len (json_dumps m) ≠ 0 := by
    have := utf8Len_dumpVal_pos m
    unfold json_dumps
    omega
  have hh := headerLoop_frame (utf8Len (json_dumps m)) hN ('\r' :: '\n' :: json_dumps m)
  have hb := blankLoop_crlf (json_dumps m)
  have hread : pyTextRead ((utf8Len (json_dumps m) : Int)) (json_dumps m) =
      (json_dumps m, []) := by
    unfold pyTextRead
    rw [if_neg (by omega)]
    have hlen : ((utf8Len (json_dumps m) : Int)).toNat = (json_dumps m).length := by
      have := utf8Len_dumpVal m
      unfold json_dumps
      omega
    rw [hlen, List.take_length, List.drop_length]
  have hload := json_loads_dumps m
  simp only [JsonReader_read, Bool.false_eq_true, if_false, hh, hb, hread, hload]

theorem headerLoopAux_fuel : ∀ (f1 : Nat) (f2 : Nat) (s : List Char),
    s.length < f1 → s.length < f2 → headerLoopAux f1 s = headerLoopAux f2 s
  | 0, _, s, h1, _ => absurd h1 (by omega)
  | _ + 1, 0, s, _, h2 => absurd h2 (by omega)
  | f1 + 1, f2 + 1, s, h1, h2 => by
      by_cases hs : s = []
      · simp [headerLoopAux, hs]
      · have hlt := splitLine_snd_lt hs
        have hrec := headerLoopAux_fuel f1 f2 (splitLine s).2 (by omega) (by omega)
        simp only [headerLoopAux, hs, if_false, hrec]

theorem blankLoopAux_fuel : ∀ (f1 : Nat) (f2 : Nat) (s : List Char),
    s.length < f1 → s.length < f2 → blankLoopAux f1 s = blankLoopAux f2 s
  | 0, _, s, h1, _ => absurd h1 (by omega)
  | _ + 1, 0, s, _, h2 => absurd h2 (by omega)
  | f1 + 1, f2 + 1, s, h1, h2 => by
      by_cases hs : s = []
      · simp [blankLoopAux, hs]
      · have hlt := splitLine_snd_lt hs
        have hrec := blankLoopAux_fuel f1 f2 (splitLine s).2 (by omega) (by omega)
        simp only [blankLoopAux, hs, if_false, hrec]

theorem headerLoop_zero_line (rest : List Char) :
    headerLoop ("Content-Length: 0\r\n".data ++ rest) = headerLoop rest := by
  have hsplit : splitLine ("Content-Length: 0\r\n".data ++ rest) =
      ("Content-Length: 0\r\n".data, rest) := by
    have := splitLine_newline (l := "Content-Length: 0\r".data) rest (by decide)
    simpa using this
  have hs1 : (splitLine ("Content-Length: 0\r\n".data ++ rest)).1 =
      "Content-Length: 0\r\n".data := by rw [hsplit]
  have hs2 : (splitLine ("Content-Length: 0\r\n".data ++ rest)).2 = rest := by rw [hsplit]
  have hne : "Content-Length: 0\r\n".data ++ rest ≠ [] := by simp
  unfold headerLoop
  rw [show ("Content-Length: 0\r\n".data ++ rest).length + 1 =
      ("Content-Length: 0\r\n".data ++ rest).length + 1 from rfl]
  rw [headerLoopAux]
  rw [if_neg hne, hs1, hs2]
  rw [if_pos (by decide),
    show pyInt ("Content-Length: 0\r\n".data.drop 16) = some 0 from by decide]
  show headerLoopAux ("Content-Length: 0\r\n".data ++ rest).length rest =
    headerLoopAux (rest.length + 1) rest
  exact headerLoopAux_fuel _ _ rest (by simp; omega) (by omega)

theorem headerLoopAux_ne_sc : ∀ (f : Nat) (s : List Char),
    headerLoopAux f s ≠ .error .streamClosed
  | 0, s => by simp [headerLoopAux]
  | f + 1, s => by
      by_cases hs : s = []
      · simp [headerLoopAux, hs]
      · rw [headerLoopAux, if_neg hs]
        by_cases hp : (splitLine s).1.take 16 = contentLengthHeader
        · rw [if_pos hp]
          cases hpy : pyInt ((splitLine s).1.drop 16) with
          | none => simp
          | some n =>
              simp only
              by_cases hn : n = 0
              · simp only [if_pos hn]
                exact headerLoopAux_ne_sc f (splitLine s).2
              · simp only [if_neg hn]
                simp
        · rw [if_neg hp]
          exact headerLoopAux_ne_sc f (splitLine s).2

theorem blankLoopAux_ne_sc : ∀ (f : Nat) (s : List Char),
    blankLoopAux f s ≠ .error .streamClosed
  | 0, s => by simp [blankLoopAux]
  | f + 1, s => by
      by_cases hs : s = []
      · simp [blankLoopAux, hs]
      · rw [blankLoopAux, if_neg hs]
        by_cases hb : pyStrip (splitLine s).1 = []
        · simp [if_pos hb]
        · rw [if_neg hb]
          exact blankLoopAux_ne_sc f (splitLine s).2

theorem headerLoop_ne_sc (s : List Char) : headerLoop s ≠ .error .streamClosed :=
  headerLoopAux_ne_sc _ s

theorem blankLoop_ne_sc (s : List Char) : blankLoop s ≠ .error .streamClosed :=
  blankLoopAux_ne_sc _ s

theorem lookup_dictDel {α : Type} (k : String) (d : List (String × α)) :
    (dictDel k d).lookup k = none := by
  induction d with
  | nil => rfl
  | cons p t ih =>
      obtain ⟨k', v'⟩ := p
      by_cases hk : k' = k
      · simp [dictDel, hk] at ih ⊢
        exact ih
      · simp only [dictDel, List.filter] at ih ⊢
        rw [show (decide (k' ≠ k)) = true by simp [hk]]
        simp only [List.lookup]
        rw [show (k == k') = false by
          rw [beq_eq_false_iff_ne]
          exact fun h => hk h.symm]
        exact ih

theorem lookup_dictSet_self {α : Type} (k : String) (v : α) (d : List (String × α)) :
    (dictSet k v d).lookup k = some v := by
  simp [dictSet, List.lookup]

theorem monitorReap_spec (st : PMState) (w : String) (pid : Nat) (conn : Conn)
    (hp : st.processes.lookup w = some pid) (hc : st.rpc.lookup w = some conn) :
    monitorReap st w = ({ processes := dictDel w st.processes, rpc := dictDel w st.rpc },
      some { conn with closed := true }) := by
  unfold monitorReap
  rw [hp, hc]

theorem get_or_start_fresh (st : PMState) (w : String) (pid : Nat)
    (h : st.rpc.lookup w = none) :
    get_or_start_json_rpc st w (some pid) =
      ({ processes := dictSet w pid st.processes, rpc := dictSet w ⟨pid, false⟩ st.rpc },
        .ok (some ⟨pid, false⟩)) := by
  unfold get_or_start_json_rpc get_json_rpc_or_none get_json_rpc start_process
  rw [h]
  simp only
  rw [lookup_dictSet_self w (⟨pid, false⟩ : Conn) st.rpc]

theorem run_with_conn (st : PMState) (w : String) (spawn : Option Nat) (module : String)
    (argv : List String) (useStdin : Bool) (cwd : String) (source : Option String)
    (msgId : String) (response : RpcResponse) (conn : Conn)
    (hconn : st.rpc.lookup w = some conn) (hopen : conn.closed = false) :
    run_over_json_rpc st w spawn module argv useStdin cwd source msgId response =
      ⟨st, [buildRunRequest msgId module argv useStdin cwd source],
        .ok (handleRunResponse (buildRunRequest msgId module argv useStdin cwd source) msgId
          response)⟩ := by
  unfold run_over_json_rpc get_or_start_json_rpc get_json_rpc_or_none get_json_rpc
  rw [hconn]
  simp only [hopen]
  rw [if_neg (by simp)]

/-- C6: length correctness of the wire format — `JsonWriter.write` emits
exactly `"Content-Length: " + N + "\r\n\r\n" + body` where `body` is the
JSON serialization of the message, the digits of `N` denote precisely the
UTF-8 byte length of that body, and no trailing newline is written (the body
contains no newline at all, so none is accounted for in the length). -/
theorem write_wire_format (m : Json) :
    JsonWriter_write false m = .ok (contentLengthHeader ++
      decimalChars (utf8Len (json_dumps m)) ++
      '\r' :: '\n' :: '\r' :: '\n' :: json_dumps m) ∧
    utf8Len (json_dumps m) = (json_dumps m).length ∧
    digitsVal (decimalChars (utf8Len (json_dumps m))) = utf8Len (json_dumps m) ∧
    (∀ c ∈ decimalChars (utf8Len (json_dumps m)), isDigitCh c = true) ∧
    '\n' ∉ json_dumps m :=
  ⟨rfl, utf8Len_dumpVal m, decimalChars_val _, decimalChars_digits _,
    newline_not_mem_dumpVal m⟩

/-- C10: a frame whose header declares `Content-Length: 0` is never returned
as an empty-body message — a parsed length of `0` is falsy, so the header loop
keeps scanning for a further `Content-Length` header, and `read` raises
`EOFError` when the stream ends before a nonzero length is found. -/
theorem zero_content_length_never_returned :
    (∀ rest, headerLoop ("Content-Length: 0\r\n".data ++ rest) = headerLoop rest) ∧
    JsonReader_read false ("Content-Length: 0\r\n\r\n".data) = .error .eofError :=
  ⟨headerLoop_zero_line, rfl⟩

/-- C3 counterexample: a stream that ends mid-header makes `JsonReader.read`
fail with `EOFError`, not the `StreamClosed` condition the claim asserts. -/
theorem read_eof_cex :
    JsonReader_read false ("Content-Le".data) = .error .eofError ∧
    PyErr.eofError ≠ PyErr.streamClosed :=
  ⟨rfl, by decide⟩

/-- C3 amended: `StreamClosedException` is raised exactly when `read` is
invoked on an already-closed reader; end-of-stream while consuming the header
block surfaces as `EOFError` (and a truncated body as a JSON decode failure),
never as the `StreamClosed` condition. -/
theorem read_streamClosed_only_closed (s : List Char) :
    JsonReader_read true s = .error .streamClosed ∧
    JsonReader_read false s ≠ .error .streamClosed := by
  refine ⟨rfl, ?_⟩
  intro hcon
  unfold JsonReader_read at hcon
  simp only [Bool.false_eq_true, if_false] at hcon
  cases hh : headerLoop s with
  | error e =>
      simp only [hh, Except.error.injEq] at hcon
      rw [hcon] at hh
      exact headerLoop_ne_sc s hh
  | ok p =>
      obtain ⟨n, s1⟩ := p
      simp only [hh] at hcon
      cases hb : blankLoop s1 with
      | error e =>
          simp only [hb, Except.error.injEq] at hcon
          rw [hcon] at hb
          exact blankLoop_ne_sc s1 hb
      | ok s2 =>
          simp only [hb] at hcon
          cases hl : json_loads (pyTextRead n s2).1 with
          | none =>
              rw [hl] at hcon
              injection hcon with h2
              exact absurd h2 (by decide)
          | some j =>
              rw [hl] at hcon
              exact Except.noConfusion hcon

theorem read_streamClosed_only_closed_witness :
    JsonReader_read true [] = .error .streamClosed ∧
    JsonReader_read false [] ≠ .error .streamClosed :=
  read_streamClosed_only_closed []

/-- C1: for every response `run_over_json_rpc` receives whose `id` matches the
request's id (over a live, open connection): with no `error` field the result
carries the response's `result` (or `""` when absent) as stdout, empty stderr
and no exception; with `error` present and `exception` true, the error text
lands in the exception field with empty stderr; with `error` present and
`exception` absent or false, the error text lands in stderr with no
exception. -/
theorem run_response_mapping (st : PMState) (w : String) (spawn : Option Nat)
    (module : String) (argv : List String) (useStdin : Bool) (cwd : String)
    (source : Option String) (msgId : String) (response : RpcResponse) (conn : Conn)
    (hconn : st.rpc.lookup w = some conn) (hopen : conn.closed = false)
    (hid : response.id = msgId) :
    (response.error = none →
      (run_over_json_rpc st w spawn module argv useStdin cwd source msgId response).result =
        .ok ⟨response.result.getD "", "", none⟩) ∧
    (∀ e, response.error = some e → response.exception.getD false = true →
      (run_over_json_rpc st w spawn module argv useStdin cwd source msgId response).result =
        .ok ⟨response.result.getD "", "", some e⟩) ∧
    (∀ e, response.error = some e → response.exception.getD false = false →
      (run_over_json_rpc st w spawn module argv useStdin cwd source msgId response).result =
        .ok ⟨response.result.getD "", e, none⟩) := by
  rw [run_with_conn st w spawn module argv useStdin cwd source msgId response conn hconn hopen]
  unfold handleRunResponse
  rw [if_neg (by simp [hid])]
  refine ⟨?_, ?_, ?_⟩
  · intro he; simp [he]
  · intro e he hex; simp [he, hex]
  · intro e he hex; simp [he, hex]

theorem run_response_mapping_witness :
    ((([("w", (⟨7, false⟩ : Conn))] : List (String × Conn)).lookup "w" =
        some (⟨7, false⟩ : Conn)) ∧
      (⟨7, false⟩ : Conn).closed = false ∧
      (⟨"id1", some "out", some "boom", some true⟩ : RpcResponse).id = "id1") ∧
    (((⟨"id1", some "out", some "boom", some true⟩ : RpcResponse).error = none →
      (run_over_json_rpc ⟨[("w", 7)], [("w", ⟨7, false⟩)]⟩ "w" none "mod" [] false "/c" none
        "id1" ⟨"id1", some "out", some "boom", some true⟩).result =
        .ok ⟨(⟨"id1", some "out", some "boom", some true⟩ : RpcResponse).result.getD "",
          "", none⟩) ∧
    (∀ e, (⟨"id1", some "out", some "boom", some true⟩ : RpcResponse).error = some e →
      (⟨"id1", some "out", some "boom", some true⟩ : RpcResponse).exception.getD false = true →
      (run_over_json_rpc ⟨[("w", 7)], [("w", ⟨7, false⟩)]⟩ "w" none "mod" [] false "/c" none
        "id1" ⟨"id1", some "out", some "boom", some true⟩).result =
        .ok ⟨(⟨"id1", some "out", some "boom", some true⟩ : RpcResponse).result.getD "",
          "", some e⟩) ∧
    (∀ e, (⟨"id1", some "out", some "boom", some true⟩ : RpcResponse).error = some e →
      (⟨"id1", some "out", some "boom", some true⟩ : RpcResponse).exception.getD false = false →
      (run_over_json_rpc ⟨[("w", 7)], [("w", ⟨7, false⟩)]⟩ "w" none "mod" [] false "/c" none
        "id1" ⟨"id1", some "out", some "boom", some true⟩).result =
        .ok ⟨(⟨"id1", some "out", some "boom", some true⟩ : RpcResponse).result.getD "",
          e, none⟩)) :=
  ⟨⟨rfl, rfl, rfl⟩,
    run_response_mapping ⟨[("w", 7)], [("w", ⟨7, false⟩)]⟩ "w" none "mod" [] false "/c" none
      "id1" ⟨"id1", some "out", some "boom", some true⟩ ⟨7, false⟩ rfl rfl rfl⟩

/-- C4: correlation enforcement — when the received response's id differs from
the request's correlation id, `run_over_json_rpc` returns (does not raise) a
RunResult whose stderr explains the mismatch (the `Invalid result for request`
text with the pretty-printed request), with empty stdout and no exception: the
mismatched response is never matched to the caller as its result. -/
theorem run_mismatch_result (st : PMState) (w : String) (spawn : Option Nat)
    (module : String) (argv : List String) (useStdin : Bool) (cwd : String)
    (source : Option String) (msgId : String) (response : RpcResponse) (conn : Conn)
    (hconn : st.rpc.lookup w = some conn) (hopen : conn.closed = false)
    (hid : response.id ≠ msgId) :
    (run_over_json_rpc st w spawn module argv useStdin cwd source msgId response).result =
      .ok ⟨"", ⟨"Invalid result for request: ".data ++
        json_dumps_indent4 (buildRunRequest msgId module argv useStdin cwd source)⟩, none⟩ ∧
    (⟨"Invalid result for request: ".data ++
      json_dumps_indent4 (buildRunRequest msgId module argv useStdin cwd source)⟩ : String) ≠
      "" := by
  constructor
  · rw [run_with_conn st w spawn module argv useStdin cwd source msgId response conn hconn hopen]
    unfold handleRunResponse
    rw [if_pos hid]
  · simp [String.ext_iff]

theorem run_mismatch_result_witness :
    ((([("w", (⟨3, false⟩ : Conn))] : List (String × Conn)).lookup "w" =
        some (⟨3, false⟩ : Conn)) ∧
      (⟨3, false⟩ : Conn).closed = false ∧
      (⟨"other", none, none, none⟩ : RpcResponse).id ≠ "id9") ∧
    ((run_over_json_rpc ⟨[("w", 3)], [("w", ⟨3, false⟩)]⟩ "w" none "mod" [] false "/c" none
        "id9" ⟨"other", none, none, none⟩).result =
      .ok ⟨"", ⟨"Invalid result for request: ".data ++
        json_dumps_indent4 (buildRunRequest "id9" "mod" [] false "/c" none)⟩, none⟩ ∧
    (⟨"Invalid result for request: ".data ++
      json_dumps_indent4 (buildRunRequest "id9" "mod" [] false "/c" none)⟩ : String) ≠ "") :=
  ⟨⟨rfl, rfl, by decide⟩,
    run_mismatch_result ⟨[("w", 3)], [("w", ⟨3, false⟩)]⟩ "w" none "mod" [] false "/c" none
      "id9" ⟨"other", none, none, none⟩ ⟨3, false⟩ rfl rfl (by decide)⟩

/-- C9 counterexample: the claim says the request contains `source` iff the
optional source argument is provided; with `source` provided as the empty
string (`some ""`), Python's `if source:` is falsy and the field is omitted. -/
theorem run_request_source_cex :
    (some "" : Option String) ≠ none ∧
    jsonField (buildRunRequest "id0" "mod" [] false "/w" (some "")) "source" = none :=
  ⟨by simp, rfl⟩

/-- C9 amended: every request sent by `run_over_json_rpc` carries exactly the
fields id, method="run", module, argv, useStdin and cwd, and carries `source`
iff the source argument is provided and nonempty (Python truthiness). -/
theorem run_request_fields (st : PMState) (w : String) (spawn : Option Nat)
    (module : String) (argv : List String) (useStdin : Bool) (cwd : String)
    (source : Option String) (msgId : String) (response : RpcResponse) (conn : Conn)
    (hconn : st.rpc.lookup w = some conn) (hopen : conn.closed = false) :
    (run_over_json_rpc st w spawn module argv useStdin cwd source msgId response).sent =
      [buildRunRequest msgId module argv useStdin cwd source] ∧
    jsonField (buildRunRequest msgId module argv useStdin cwd source) "id" =
      some (.str msgId) ∧
    jsonField (buildRunRequest msgId module argv useStdin cwd source) "method" =
      some (.str "run") ∧
    jsonField (buildRunRequest msgId module argv useStdin cwd source) "module" =
      some (.str module) ∧
    jsonField (buildRunRequest msgId module argv useStdin cwd source) "argv" =
      some (.arr (argv.map .str)) ∧
    jsonField (buildRunRequest msgId module argv useStdin cwd source) "useStdin" =
      some (.bool useStdin) ∧
    jsonField (buildRunRequest msgId module argv useStdin cwd source) "cwd" =
      some (.str cwd) ∧
    (∀ s, source = some s → s ≠ "" →
      jsonField (buildRunRequest msgId module argv useStdin cwd source) "source" =
        some (.str s)) ∧
    ((source = none ∨ source = some "") →
      jsonField (buildRunRequest msgId module argv useStdin cwd source) "source" = none) := by
  refine ⟨?_, rfl, rfl, rfl, rfl, rfl, rfl, ?_, ?_⟩
  · rw [run_with_conn st w spawn module argv useStdin cwd source msgId response conn hconn hopen]
  · intro s hs hne
    subst hs
    unfold buildRunRequest jsonField
    have hm : (match some s with
        | some s => if s = "" then [] else [("source", Json.str s)]
        | none => ([] : List (String × Json))) =
        (if s = "" then [] else [("source", Json.str s)]) := rfl
    rw [hm, if_neg hne]
    rfl
  · intro h
    rcases h with rfl | rfl
    · rfl
    · rfl

theorem run_request_fields_witness :
    ((([("w", (⟨4, false⟩ : Conn))] : List (String × Conn)).lookup "w" =
        some (⟨4, false⟩ : Conn)) ∧ (⟨4, false⟩ : Conn).closed = false) ∧
    ((run_over_json_rpc ⟨[("w", 4)], [("w", ⟨4, false⟩)]⟩ "w" none "m" ["a"] true "/c"
        (some "src") "id2" ⟨"id2", none, none, none⟩).sent =
      [buildRunRequest "id2" "m" ["a"] true "/c" (some "src")] ∧
    jsonField (buildRunRequest "id2" "m" ["a"] true "/c" (some "src")) "id" =
      some (.str "id2") ∧
    jsonField (buildRunRequest "id2" "m" ["a"] true "/c" (some "src")) "method" =
      some (.str "run") ∧
    jsonField (buildRunRequest "id2" "m" ["a"] true "/c" (some "src")) "module" =
      some (.str "m") ∧
    jsonField (buildRunRequest "id2" "m" ["a"] true "/c" (some "src")) "argv" =
      some (.arr (["a"].map .str)) ∧
    jsonField (buildRunRequest "id2" "m" ["a"] true "/c" (some "src")) "useStdin" =
      some (.bool true) ∧
    jsonField (buildRunRequest "id2" "m" ["a"] true "/c" (some "src")) "cwd" =
      some (.str "/c") ∧
    (∀ s, (some "src" : Option String) = some s → s ≠ "" →
      jsonField (buildRunRequest "id2" "m" ["a"] true "/c" (some "src")) "source" =
        some (.str s)) ∧
    (((some "src" : Option String) = none ∨ (some "src" : Option String) = some "") →
      jsonField (buildRunRequest "id2" "m" ["a"] true "/c" (some "src")) "source" = none)) :=
  ⟨⟨rfl, rfl⟩,
    run_request_fields ⟨[("w", 4)], [("w", ⟨4, false⟩)]⟩ "w" none "m" ["a"] true "/c"
      (some "src") "id2" ⟨"id2", none, none, none⟩ ⟨4, false⟩ rfl rfl⟩

/-- C5: dead-process reclamation — after the monitor observes the subprocess
backing workspace `w` exit, its entry is removed from both pool maps and its
connection is closed, so the dead process is unreachable through the map; a
subsequent `get_or_start_json_rpc` for `w` finds no entry and registers a
fresh subprocess with a fresh open connection instead of reusing the closed
one. -/
theorem dead_process_reclaimed (st : PMState) (w : String) (pid : Nat) (conn : Conn)
    (hp : st.processes.lookup w = some pid) (hc : st.rpc.lookup w = some conn) :
    (monitorReap st w).1.processes.lookup w = none ∧
    (monitorReap st w).1.rpc.lookup w = none ∧
    (monitorReap st w).2 = some { conn with closed := true } ∧
    ∀ pid2, get_or_start_json_rpc (monitorReap st w).1 w (some pid2) =
      ({ processes := dictSet w pid2 (dictDel w st.processes),
         rpc := dictSet w ⟨pid2, false⟩ (dictDel w st.rpc) },
        .ok (some ⟨pid2, false⟩)) := by
  have hreap := monitorReap_spec st w pid conn hp hc
  rw [hreap]
  exact ⟨lookup_dictDel w _, lookup_dictDel w _, rfl,
    fun pid2 => get_or_start_fresh _ w pid2 (lookup_dictDel w _)⟩

theorem dead_process_reclaimed_witness :
    ((([("w", 9)] : List (String × Nat)).lookup "w" = some 9) ∧
      (([("w", (⟨9, false⟩ : Conn))] : List (String × Conn)).lookup "w" =
        some (⟨9, false⟩ : Conn))) ∧
    ((monitorReap ⟨[("w", 9)], [("w", ⟨9, false⟩)]⟩ "w").1.processes.lookup "w" = none ∧
    (monitorReap ⟨[("w", 9)], [("w", ⟨9, false⟩)]⟩ "w").1.rpc.lookup "w" = none ∧
    (monitorReap ⟨[("w", 9)], [("w", ⟨9, false⟩)]⟩ "w").2 =
      some { (⟨9, false⟩ : Conn) with closed := true } ∧
    ∀ pid2, get_or_start_json_rpc (monitorReap ⟨[("w", 9)], [("w", ⟨9, false⟩)]⟩ "w").1 "w"
        (some pid2) =
      ({ processes := dictSet "w" pid2 (dictDel "w" [("w", 9)]),
         rpc := dictSet "w" ⟨pid2, false⟩ (dictDel "w" [("w", ⟨9, false⟩)]) },
        .ok (some ⟨pid2, false⟩))) :=
  ⟨⟨rfl, rfl⟩, dead_process_reclaimed ⟨[("w", 9)], [("w", ⟨9, false⟩)]⟩ "w" 9 ⟨9, false⟩ rfl rfl⟩

/-- C7: spawn-failure atomicity — when `subprocess.Popen` fails, no entry is
registered (the pool maps are returned unchanged) and the failure surfaces to
`run_over_json_rpc`'s caller as the propagated exception, with nothing sent
and no retry. -/
theorem spawn_failure_atomic (st : PMState) (w : String) (module : String)
    (argv : List String) (useStdin : Bool) (cwd : String) (source : Option String)
    (msgId : String) (response : RpcResponse)
    (h : st.rpc.lookup w = none) :
    start_process st w none = (st, some .osError) ∧
    run_over_json_rpc st w none module argv useStdin cwd source msgId response =
      ⟨st, [], .error .osError⟩ := by
  refine ⟨rfl, ?_⟩
  unfold run_over_json_rpc get_or_start_json_rpc get_json_rpc_or_none get_json_rpc
  rw [h]
  rfl

theorem spawn_failure_atomic_witness :
    (((⟨[], []⟩ : PMState).rpc.lookup "w" = none) ∧
    (start_process ⟨[], []⟩ "w" none = (⟨[], []⟩, some .osError) ∧
    run_over_json_rpc ⟨[], []⟩ "w" none "m" [] false "/c" none "i" ⟨"i", none, none, none⟩ =
      ⟨⟨[], []⟩, [], .error .osError⟩)) :=
  ⟨rfl, spawn_failure_atomic ⟨[], []⟩ "w" "m" [] false "/c" none "i" ⟨"i", none, none, none⟩ rfl⟩

/-- C8 counterexample: `get_json_rpc` on a pool with no entry for the
workspace raises `StreamClosedException` itself — not a NotFound condition
distinct from StreamClosed, as the claim asserts. -/
theorem get_json_rpc_missing_cex :
    get_json_rpc ⟨[], []⟩ "w" = .error .streamClosed := rfl

/-- C8 amended: `get_json_rpc` for a workspace with no live entry fails with
`StreamClosedException` (the same condition used for closed streams, not a
distinct NotFound), and the failure is recoverable: `get_or_start_json_rpc`
handles it internally by starting a process rather than propagating it. -/
theorem get_json_rpc_missing_recovered (st : PMState) (w : String) (pid : Nat)
    (h : st.rpc.lookup w = none) :
    get_json_rpc st w = .error .streamClosed ∧
    get_or_start_json_rpc st w (some pid) =
      ({ processes := dictSet w pid st.processes, rpc := dictSet w ⟨pid, false⟩ st.rpc },
        .ok (some ⟨pid, false⟩)) := by
  constructor
  · unfold get_json_rpc
    rw [h]
  · exact get_or_start_fresh st w pid h


theorem get_json_rpc_missing_recovered_witness :
    (((⟨[("v", 1)], []⟩ : PMState).rpc.lookup "w" = none) ∧
    (get_json_rpc ⟨[("v", 1)], []⟩ "w" = .error .streamClosed ∧
    get_or_start_json_rpc ⟨[("v", 1)], []⟩ "w" (some 5) =
      ({ processes := dictSet "w" 5 [("v", 1)], rpc := dictSet "w" ⟨5, false⟩ [] },
        .ok (some ⟨5, false⟩)))) :=
  ⟨rfl, get_json_rpc_missing_recovered ⟨[("v", 1)], []⟩ "w" 5 rfl⟩
